import Mathlib

/-
  Verification of the stacks-signer per-reward-cycle engine
  (src/stacks-signer/src/signer.rs and src/stacks-signer/src/signerdb.rs).

  The Rust code is shallowly embedded: byte vectors become List Nat, the
  HashMap collections become association lists with insert-or-replace
  semantics, HashSet becomes a duplicate-free List Nat, Instant becomes a
  Nat timestamp, and the external collaborators (chain RPC, stackerdb
  bulletin, wsts threshold-signature library) are passed in as explicit
  oracle inputs, mirroring the values the engine reads from them.
-/

namespace StacksSigner

/-- Byte vectors (Vec from the source) are lists of naturals. -/
abbrev Bytes := List Nat

/-- Model of Sha512Trunc256Sum::from_bytes: succeeds exactly when given a
    32-byte slice, returning the 32-byte digest value itself. -/
def sha512Trunc256FromBytes (bs : Bytes) : Option Bytes :=
  if bs.length = 32 then some bs else none

/-- Association-list lookup, modelling HashMap::get. -/
def alLookup {α β : Type} [DecidableEq α] : List (α × β) → α → Option β
  | [], _ => none
  | (k, v) :: rest, key => if key = k then some v else alLookup rest key

/-- Association-list insert-or-replace, modelling HashMap::insert. -/
def alInsert {α β : Type} [DecidableEq α] : List (α × β) → α → β → List (α × β)
  | [], key, value => [(key, value)]
  | (k, v) :: rest, key, value =>
    if key = k then (k, value) :: rest else (k, v) :: alInsert rest key value

/-- Association-list removal, modelling HashMap::remove. -/
def alErase {α β : Type} [DecidableEq α] : List (α × β) → α → List (α × β)
  | [], _ => []
  | (k, v) :: rest, key =>
    if key = k then alErase rest key else (k, v) :: alErase rest key

/-- HashSet::insert on a set of ids: the Bool is true exactly when the
    element was newly inserted. -/
def setInsert (s : List Nat) (x : Nat) : List Nat × Bool :=
  if x ∈ s then (s, false) else (s ++ [x], true)

/-- Model of a NakamotoBlock: the 32-byte signer signature hash carried in
    its header, plus the remaining payload bytes. -/
structure NakamotoBlockM where
  signer_signature_hash : Bytes
  body : Bytes
deriving DecidableEq, Repr

/-- Model of NakamotoBlock consensus serialization (serialize_to_vec): a
    length-prefixed concatenation, chosen so that decoding is a partial
    inverse.  The digest travels with the block value because hashing
    itself is outside the embedded code. -/
def blockEncode (b : NakamotoBlockM) : Bytes :=
  b.signer_signature_hash.length :: (b.signer_signature_hash ++ b.body)

/-- Model of read_next::<NakamotoBlock>: partial inverse of blockEncode. -/
def blockDecode (bs : Bytes) : Option NakamotoBlockM :=
  match bs with
  | [] => none
  | n :: rest => if n ≤ rest.length then some ⟨rest.take n, rest.drop n⟩ else none

/-- Model of the wsts NonceRequest: only its message field is touched by
    the embedded code. -/
structure NonceRequestM where
  message : Bytes
deriving DecidableEq, Repr

/-- Model of the wsts SignatureShareRequest: only its message field is
    touched by the embedded code. -/
structure SignatureShareRequestM where
  message : Bytes
deriving DecidableEq, Repr

/-- BlockInfo from signer.rs lines 56-67. -/
structure BlockInfo where
  block : NakamotoBlockM
  vote : Option Bytes
  valid : Option Bool
  nonce_request : Option NonceRequestM
  signed_over : Bool
deriving DecidableEq, Repr

/-- BlockInfo::new (signer.rs lines 71-79). -/
def BlockInfo.new (block : NakamotoBlockM) : BlockInfo :=
  ⟨block, none, none, none, false⟩

/-- BlockInfo::new_with_request (signer.rs lines 82-90). -/
def BlockInfo.new_with_request (block : NakamotoBlockM) (nonce_request : NonceRequestM) :
    BlockInfo :=
  ⟨block, none, none, some nonce_request, true⟩

/-- The hash-byte extraction inlined at the top of
    validate_signature_share_request (signer.rs lines 550-562): a 33-byte
    message whose byte at index 32 is 110 (the byte value of the lowercase
    letter n) yields its first 32 bytes, a 32-byte message yields itself,
    anything else is rejected. -/
def requestHashBytes (message : Bytes) : Option Bytes :=
  if message.length = 33 ∧ message.getD 32 0 = 110 then some (message.take 32)
  else if message.length = 32 then some message
  else none

/-- Signer::validate_signature_share_request (signer.rs lines 549-594).
    The source mutates the request and returns a Bool; the embedding
    returns the updated request on acceptance and none on rejection. -/
def validate_signature_share_request (blocks : List (Bytes × BlockInfo))
    (request : SignatureShareRequestM) : Option SignatureShareRequestM :=
  match requestHashBytes request.message with
  | none => none
  | some hashBytes =>
    match sha512Trunc256FromBytes hashBytes with
    | none => none
    | some hash =>
      match alLookup blocks hash with
      | none => none
      | some blockInfo =>
        match blockInfo.vote with
        | some vote => some { request with message := vote }
        | none => none

/-- CoordinatorMetadata from libsigner: the 20-byte pox consensus hash is
    modelled as an opaque Nat, the burn block height as a Nat. -/
structure CoordinatorMetadataM where
  pox_consensus_hash : Nat
  burn_block_height : Nat
deriving DecidableEq, Repr

/-- NackMessage from libsigner. -/
structure NackMessageM where
  sender_signer_id : Nat
  target_signer_id : Nat
  coordinator_metadata : CoordinatorMetadataM
deriving DecidableEq, Repr

/-- StaleNodeNackPolicy from the signer configuration. -/
structure StaleNodeNackPolicyM where
  nack_threshold_percent : Nat
  back_off_duration_ms : Nat
deriving DecidableEq, Repr

/-- Command (signer.rs lines 95-107). -/
inductive Command
  | dkg
  | sign (block : NakamotoBlockM) (is_taproot : Bool) (merkle_root : Option Nat)
deriving DecidableEq, Repr

/-- State (signer.rs lines 111-118). -/
inductive StateM
  | idle
  | operationInProgress
  | tenureExceeded
deriving DecidableEq, Repr

/-- The Signer struct (signer.rs lines 121-159), restricted to the fields
    the embedded operations read or write.  current_dkg_id,
    aggregate_public_key and coordinator_message model the fields of the
    external wsts coordinator that the engine reads and writes through
    accessors (current_dkg_id, get_aggregate_public_key /
    set_aggregate_public_key, get_message). -/
structure SignerM where
  state : StateM
  blocks : List (Bytes × BlockInfo)
  commands : List Command
  signer_id : Nat
  nack_messages_received : List (CoordinatorMetadataM × List Nat)
  nack_messages_sent : List (CoordinatorMetadataM × List Nat)
  stale_node_nack_policy : Option StaleNodeNackPolicyM
  nack_threshold : Option Nat
  back_off_until : Option Nat
  apply_back_off_delay : Bool
  current_dkg_id : Nat
  aggregate_public_key : Option Bytes
  coordinator_message : Bytes
deriving DecidableEq, Repr

/-- A DKG or Sign round-start packet published to the bulletin by
    execute_command. -/
inductive RoundStart
  | dkg
  | sign (block : NakamotoBlockM)
deriving DecidableEq, Repr

/-- Oracle for the external calls made by execute_command: the chain answer
    to get_last_round (outer none models an RPC failure surviving retries)
    and the success of the two wsts round-starting calls. -/
structure ExecOracle where
  last_round : Option (Option Nat)
  start_dkg_ok : Bool
  start_sign_ok : Bool
deriving DecidableEq, Repr

/-- Signer::finish_operation (signer.rs lines 232-235); the coordinator
    selector timestamp is not modelled. -/
def finish_operation (s : SignerM) : SignerM :=
  { s with state := StateM.idle }

/-- Signer::update_operation (signer.rs lines 238-241). -/
def update_operation (s : SignerM) : SignerM :=
  { s with state := StateM.operationInProgress }

/-- Signer::execute_command (signer.rs lines 244-318).  On a successful
    start_dkg_round the external library increments its dkg id internally;
    the increment is modelled here.  The emitted RoundStart values model
    the packets written to the bulletin. -/
def execute_command (s : SignerM) (oracle : ExecOracle) (command : Command) :
    SignerM × List RoundStart :=
  match command with
  | Command.dkg =>
    match oracle.last_round with
    | none => (s, [])
    | some vote_round =>
      let s1 := { s with current_dkg_id := vote_round.getD 0 }
      if oracle.start_dkg_ok then
        (update_operation { s1 with current_dkg_id := s1.current_dkg_id + 1 }, [RoundStart.dkg])
      else (s1, [])
  | Command.sign block _is_taproot _merkle_root =>
    let hash := block.signer_signature_hash
    let entry :=
      match alLookup s.blocks hash with
      | some bi => (s.blocks, bi)
      | none => (alInsert s.blocks hash (BlockInfo.new block), BlockInfo.new block)
    let s1 := { s with blocks := entry.1 }
    if entry.2.signed_over then (s1, [])
    else if oracle.start_sign_ok then
      (update_operation { s1 with
          blocks := alInsert s1.blocks hash { entry.2 with signed_over := true },
          coordinator_message := blockEncode block }, [RoundStart.sign block])
    else (s1, [])

/-- Signer::process_next_command (signer.rs lines 321-356); the coordinator
    id comes from the coordinator selector and is passed in. -/
def process_next_command (s : SignerM) (coordinator_id : Nat) (oracle : ExecOracle) :
    SignerM × List RoundStart :=
  match s.state with
  | StateM.idle =>
    if coordinator_id ≠ s.signer_id then (s, [])
    else
      match s.commands with
      | [] => (s, [])
      | command :: rest => execute_command { s with commands := rest } oracle command
  | StateM.operationInProgress => (s, [])
  | StateM.tenureExceeded => (s, [])

/-- Signer::handle_proposed_blocks (signer.rs lines 491-505); the RPC
    submission for validation has no effect on the engine state. -/
def handle_proposed_blocks (s : SignerM) (blocks : List NakamotoBlockM) : SignerM :=
  blocks.foldl
    (fun acc block =>
      { acc with blocks :=
          alInsert acc.blocks block.signer_signature_hash (BlockInfo.new block) })
    s

/-- Signer::determine_vote (signer.rs lines 882-903): the vote bytes are
    the signer signature hash, with the byte 110 appended when the block
    was not validated; the vote is cached on the block info and written
    into the nonce request message. -/
def determine_vote (blockInfo : BlockInfo) (nonceRequest : NonceRequestM) :
    BlockInfo × NonceRequestM :=
  let voteBytes :=
    if blockInfo.valid.getD false then blockInfo.block.signer_signature_hash
    else blockInfo.block.signer_signature_hash ++ [110]
  ({ blockInfo with vote := some voteBytes }, { nonceRequest with message := voteBytes })

/-- Signer::validate_nonce_request (signer.rs lines 600-643).  The source
    mutates the request and returns a Bool; the embedding returns the
    updated signer state and the updated request on acceptance. -/
def validate_nonce_request (s : SignerM) (nonceRequest : NonceRequestM) :
    SignerM × Option NonceRequestM :=
  match blockDecode nonceRequest.message with
  | none => (s, none)
  | some block =>
    let hash := block.signer_signature_hash
    match alLookup s.blocks hash with
    | none =>
      ({ s with blocks :=
          alInsert s.blocks hash (BlockInfo.new_with_request block nonceRequest) }, none)
    | some blockInfo =>
      match blockInfo.valid with
      | none =>
        ({ s with blocks :=
            alInsert s.blocks hash { blockInfo with nonce_request := some nonceRequest } },
         none)
      | some _ =>
        let dv := determine_vote blockInfo nonceRequest
        ({ s with blocks := alInsert s.blocks hash dv.1 }, some dv.2)

/-- BlockResponse accepted / rejected message written to the bulletin. -/
inductive BlockResponseM
  | accepted (hash : Bytes)
  | rejected (hash : Bytes)
deriving DecidableEq, Repr

/-- Signer::process_signature (signer.rs lines 1052-1104).  The aggregate
    public key and current message are read from the external coordinator;
    signature_valid is the outcome of the external signature.verify call.
    Returns the updated block map and the bulletin broadcast, if any. -/
def process_signature (blocks : List (Bytes × BlockInfo)) (aggregate_public_key : Option Bytes)
    (message : Bytes) (signature_valid : Bool) :
    List (Bytes × BlockInfo) × Option BlockResponseM :=
  match aggregate_public_key with
  | none => (blocks, none)
  | some _ =>
    let hashBytes := if message.length > 32 then message.take 32 else message
    match sha512Trunc256FromBytes hashBytes with
    | none => (blocks, none)
    | some hash =>
      let blocks1 := alErase blocks hash
      if signature_valid = false then (blocks1, none)
      else if message = hash then (blocks1, some (BlockResponseM.accepted hash))
      else (blocks1, some (BlockResponseM.rejected hash))

/-- SignError variants handled by process_sign_error. -/
inductive SignErrorM
  | nonceTimeout
  | insufficientSigners
  | aggregator
deriving DecidableEq, Repr

/-- Bulletin broadcasts emitted while processing operation results. -/
inductive BroadcastM
  | blockResponse (response : BlockResponseM)
  | blockRejection (hash : Bytes)
  | dkgVote
deriving DecidableEq, Repr

/-- Signer::process_sign_error (signer.rs lines 1107-1172), restricted to
    its effect on the block map and its bulletin broadcast. -/
def process_sign_error (blocks : List (Bytes × BlockInfo)) (message : Bytes) (e : SignErrorM) :
    List (Bytes × BlockInfo) × List BroadcastM :=
  match e with
  | SignErrorM.nonceTimeout => (blocks, [])
  | SignErrorM.aggregator => (blocks, [])
  | SignErrorM.insufficientSigners =>
    match blockDecode message with
    | some block => (blocks, [BroadcastM.blockRejection block.signer_signature_hash])
    | none =>
      let hashBytes := if message.length > 32 then message.take 32 else message
      match sha512Trunc256FromBytes hashBytes with
      | none => (blocks, [])
      | some hash =>
        match alLookup blocks hash with
        | none => (blocks, [])
        | some blockInfo =>
          (alErase blocks hash,
           [BroadcastM.blockRejection blockInfo.block.signer_signature_hash])

/-- OperationResult from the wsts library; for Sign results the oracle Bool
    records whether the returned signature verifies against the aggregate
    key and current message. -/
inductive OperationResultM
  | sign (signature_valid : Bool)
  | signTaproot
  | dkg
  | signError (e : SignErrorM)
  | dkgError
deriving DecidableEq, Repr

/-- One arm of Signer::process_operation_results (signer.rs lines 945-971);
    process_dkg only builds and broadcasts a vote transaction, which leaves
    the modelled engine state unchanged. -/
def process_operation_result (s : SignerM) (r : OperationResultM) :
    SignerM × List BroadcastM :=
  match r with
  | OperationResultM.sign signature_valid =>
    let pr := process_signature s.blocks s.aggregate_public_key s.coordinator_message
        signature_valid
    ({ s with blocks := pr.1 },
     (pr.2.map (fun response => BroadcastM.blockResponse response)).toList)
  | OperationResultM.signTaproot => (s, [])
  | OperationResultM.dkg => (s, [BroadcastM.dkgVote])
  | OperationResultM.signError e =>
    let pe := process_sign_error s.blocks s.coordinator_message e
    ({ s with blocks := pe.1 }, pe.2)
  | OperationResultM.dkgError => (s, [])

/-- Signer::process_operation_results (signer.rs lines 945-971): results
    are processed in order. -/
def process_operation_results : SignerM → List OperationResultM → SignerM × List BroadcastM
  | s, [] => (s, [])
  | s, r :: rest =>
    let p1 := process_operation_result s r
    let p2 := process_operation_results p1.1 rest
    (p2.1, p1.2 ++ p2.2)

/-- Inner message of a wsts packet, restricted to the variants the engine
    inspects. -/
inductive PacketMsgM
  | signatureShareRequest (request : SignatureShareRequestM)
  | nonceRequest (request : NonceRequestM)
  | other
deriving DecidableEq, Repr

/-- Oracle for the two external process_inbound_messages calls inside
    handle_packets: the operation results returned by the coordinator and
    whether the coordinator state is away from Idle afterwards. -/
structure LibOracle where
  operation_results : List OperationResultM
  coordinator_busy : Bool
deriving DecidableEq, Repr

/-- Signer::handle_packets (signer.rs lines 509-544).  The signing-round
    and coordinator outbound packets do not change the modelled state. -/
def handle_packets (s : SignerM) (packets : List PacketMsgM) (lib : LibOracle) :
    SignerM × List BroadcastM :=
  if lib.operation_results ≠ [] then
    let p := process_operation_results s lib.operation_results
    (finish_operation p.1, p.2)
  else if packets ≠ [] ∧ lib.coordinator_busy then (update_operation s, [])
  else (s, [])

/-- Signer::verify_packet (signer.rs lines 910-941); signature_ok is the
    outcome of the external packet.verify call. -/
def verify_packet (s : SignerM) (packet : PacketMsgM) (signature_ok : Bool) :
    SignerM × Option PacketMsgM :=
  if signature_ok then
    match packet with
    | PacketMsgM.signatureShareRequest request =>
      match validate_signature_share_request s.blocks request with
      | some request1 => (s, some (PacketMsgM.signatureShareRequest request1))
      | none => (s, none)
    | PacketMsgM.nonceRequest request =>
      let vr := validate_nonce_request s request
      match vr.2 with
      | some request1 => (vr.1, some (PacketMsgM.nonceRequest request1))
      | none => (vr.1, none)
    | PacketMsgM.other => (s, some PacketMsgM.other)
  else (s, none)

/-- Whether the back-off deadline has elapsed at the given time. -/
def backOffElapsed (back_off_until : Option Nat) (now : Nat) : Bool :=
  match back_off_until with
  | some deadline => decide (deadline ≤ now)
  | none => false

/-- Signer::reset_nack_back_off (signer.rs lines 1517-1527). -/
def reset_nack_back_off (s : SignerM) (now : Nat) : SignerM :=
  if s.apply_back_off_delay = true ∧ backOffElapsed s.back_off_until now = true then
    { s with back_off_until := none, apply_back_off_delay := false,
             nack_messages_received := [] }
  else s

/-- Signer::process_signer_consensus_hash_view (signer.rs lines 1405-1450)
    together with broadcast_nack_message (lines 1454-1475).  The emitted
    list carries the (local metadata, target id) of each NACK sent; the
    registry insertion happens before the send, so a failed send leaves the
    registry identical. -/
def process_signer_consensus_hash_view (s : SignerM)
    (current_md sender_md : CoordinatorMetadataM) (sender_id : Nat) :
    SignerM × List (CoordinatorMetadataM × Nat) :=
  if current_md.pox_consensus_hash ≠ sender_md.pox_consensus_hash then
    if current_md.burn_block_height < sender_md.burn_block_height then (s, [])
    else
      let sent0 :=
        if (alLookup s.nack_messages_sent current_md).isSome then s.nack_messages_sent
        else []
      let targets := (alLookup sent0 current_md).getD []
      let ins := setInsert targets sender_id
      let sent1 := alInsert sent0 current_md ins.1
      if ins.2 then ({ s with nack_messages_sent := sent1 }, [(current_md, sender_id)])
      else ({ s with nack_messages_sent := sent1 }, [])
  else (s, [])

/-- Signer::process_nack_message (signer.rs lines 1479-1514). -/
def process_nack_message (s : SignerM) (nack : NackMessageM)
    (current_md : CoordinatorMetadataM) (now : Nat) (policy : StaleNodeNackPolicyM) :
    SignerM :=
  let remote_md := nack.coordinator_metadata
  if nack.target_signer_id = s.signer_id ∧
      current_md.burn_block_height < remote_md.burn_block_height then
    let senders := (alLookup s.nack_messages_received remote_md).getD []
    let ins := setInsert senders nack.sender_signer_id
    let received1 := alInsert s.nack_messages_received remote_md ins.1
    let s1 := { s with nack_messages_received := received1 }
    match s1.nack_threshold with
    | none => s1
    | some threshold =>
      let nack_count := ((alLookup s1.nack_messages_received remote_md).getD []).length
      if threshold ≤ nack_count then
        { s1 with apply_back_off_delay := true,
                  back_off_until := some (now + policy.back_off_duration_ms) }
      else s1
  else s

/-- get_nack_threshold (signer.rs lines 1531-1533): integer division on
    naturals, the u32 arithmetic is assumed not to overflow. -/
def get_nack_threshold (total_signers : Nat) (nack_threshold_percent : Nat) : Nat :=
  total_signers * nack_threshold_percent / 100

/-- One message of a SignerMessages event; signature_ok is the oracle for
    the wsts packet-signature verification. -/
inductive SignerMessageM
  | blockResponse
  | transactions
  | packetMessage (packet : PacketMsgM) (signature_ok : Bool) (packet_signer_id : Nat)
      (sender_md : CoordinatorMetadataM)
  | nack (message : NackMessageM)
deriving DecidableEq, Repr

/-- The packet-collection pass of Signer::handle_signer_messages
    (signer.rs lines 452-488): per message, run the consensus-hash view
    comparison, verify and possibly rewrite the packet, or process a NACK
    when a stale-node policy is configured. -/
def collect_packets : SignerM → CoordinatorMetadataM → Nat → List SignerMessageM →
    SignerM × List PacketMsgM × List (CoordinatorMetadataM × Nat)
  | s, _, _, [] => (s, [], [])
  | s, current_md, now, msg :: rest =>
    match msg with
    | SignerMessageM.blockResponse => collect_packets s current_md now rest
    | SignerMessageM.transactions => collect_packets s current_md now rest
    | SignerMessageM.packetMessage packet signature_ok packet_signer_id sender_md =>
      let pv := process_signer_consensus_hash_view s current_md sender_md packet_signer_id
      let vp := verify_packet pv.1 packet signature_ok
      let c := collect_packets vp.1 current_md now rest
      (c.1, vp.2.toList ++ c.2.1, pv.2 ++ c.2.2)
    | SignerMessageM.nack nack_message =>
      match s.stale_node_nack_policy with
      | some policy =>
        collect_packets (process_nack_message s nack_message current_md now policy)
          current_md now rest
      | none => collect_packets s current_md now rest

/-- Signer::handle_signer_messages (signer.rs lines 452-488): collect the
    admitted packets, then hand them to handle_packets. -/
def handle_signer_messages (s : SignerM) (current_md : CoordinatorMetadataM)
    (messages : List SignerMessageM) (lib : LibOracle) (now : Nat) :
    SignerM × List BroadcastM × List (CoordinatorMetadataM × Nat) :=
  let c := collect_packets s current_md now messages
  let hp := handle_packets c.1 c.2.1 lib
  (hp.1, hp.2, c.2.2)

/-- BlockValidateResponse from the chain RPC, reduced to the hash the
    engine reads from it. -/
inductive BlockValidateResponseM
  | ok (signer_signature_hash : Bytes)
  | reject (signer_signature_hash : Bytes)
deriving DecidableEq, Repr

/-- Signer::handle_block_validate_response (signer.rs lines 359-449).
    audit is the outcome of verify_block_transactions (whose own chain and
    bulletin traffic is external); coordinator_id comes from the selector;
    lib is the oracle for the handle_packets re-entry on a pending nonce
    request. -/
def handle_block_validate_response (s : SignerM) (response : BlockValidateResponseM)
    (audit : Bool) (coordinator_id : Nat) (lib : LibOracle) (now : Nat) :
    SignerM × List BroadcastM :=
  let entry :=
    match response with
    | BlockValidateResponseM.ok hash =>
      match alLookup s.blocks hash with
      | none => none
      | some blockInfo =>
        some (hash, { blockInfo with valid := some audit }, ([] : List BroadcastM))
    | BlockValidateResponseM.reject hash =>
      match alLookup s.blocks hash with
      | none => none
      | some blockInfo =>
        some (hash, { blockInfo with valid := some false },
          [BroadcastM.blockRejection hash])
  match entry with
  | none => (s, [])
  | some (hash, blockInfo, out) =>
    match blockInfo.nonce_request with
    | some nonceRequest =>
      let dv := determine_vote { blockInfo with nonce_request := none } nonceRequest
      let s1 := { s with blocks := alInsert s.blocks hash dv.1 }
      let hp := handle_packets s1 [PacketMsgM.nonceRequest dv.2] lib
      (reset_nack_back_off hp.1 now, out ++ hp.2)
    | none =>
      let s1 := { s with blocks := alInsert s.blocks hash blockInfo }
      let s2 :=
        if blockInfo.valid.getD false ∧ blockInfo.signed_over = false ∧
            coordinator_id = s1.signer_id ∧ s1.apply_back_off_delay = false then
          { s1 with commands := s1.commands ++ [Command.sign blockInfo.block false none] }
        else s1
      (reset_nack_back_off s2 now, out)

/-- A vote transaction already on the bulletin, as consumed by the old
    transaction scan in update_dkg: whether its origin address is this
    signer and its parsed (signer_index, point, round) arguments, none
    modelling a parse failure. -/
structure VoteTxM where
  origin_is_self : Bool
  args : Option (Nat × Bytes × Nat)
deriving DecidableEq, Repr

/-- The old-transaction scan of Signer::update_dkg (signer.rs lines
    1251-1277): is there a pending bulletin vote transaction from this
    signer for the current aggregate key and dkg round. -/
def has_pending_vote_transaction (s : SignerM) (old_transactions : List VoteTxM) : Bool :=
  old_transactions.any (fun tx =>
    tx.origin_is_self &&
      (match tx.args with
       | some (_, point, round) =>
         decide (s.aggregate_public_key = some point) && decide (round = s.current_dkg_id)
       | none => false))

/-- Oracle for the chain reads made by update_dkg. -/
structure UpdateDkgView where
  new_aggregate_public_key : Option Bytes
  coordinator_id : Nat
  old_transactions : List VoteTxM
  vote_exists : Bool
deriving DecidableEq, Repr

/-- Signer::update_dkg (signer.rs lines 1221-1298).  The two early returns
    (a pending bulletin vote, an on-chain vote) skip the final
    reset_nack_back_off exactly as in the source. -/
def update_dkg (s : SignerM) (view : UpdateDkgView) (now : Nat) : SignerM :=
  let s0 :=
    if view.new_aggregate_public_key.isSome = true ∧
        s.aggregate_public_key ≠ view.new_aggregate_public_key then
      { s with aggregate_public_key := view.new_aggregate_public_key }
    else s
  if view.new_aggregate_public_key = none ∧ s0.signer_id = view.coordinator_id ∧
      s0.state = StateM.idle ∧ s0.apply_back_off_delay = false then
    if has_pending_vote_transaction s0 view.old_transactions = true then s0
    else if view.vote_exists = true then s0
    else if s0.commands.head? ≠ some Command.dkg then
      reset_nack_back_off { s0 with commands := Command.dkg :: s0.commands } now
    else reset_nack_back_off s0 now
  else reset_nack_back_off s0 now

/-- One engine operation: the event handlers of process_event together with
    the command-processing and dkg-update passes of the run loop, each with
    its external oracle inputs. -/
inductive EngineOp
  | proposedBlocks (blocks : List NakamotoBlockM)
  | validateResponse (response : BlockValidateResponseM) (audit : Bool)
      (coordinator_id : Nat) (lib : LibOracle) (now : Nat)
  | signerMessages (current_md : CoordinatorMetadataM) (messages : List SignerMessageM)
      (lib : LibOracle) (now : Nat)
  | nextCommand (coordinator_id : Nat) (oracle : ExecOracle)
  | updateDkg (view : UpdateDkgView) (now : Nat)
  | statusCheck
deriving DecidableEq, Repr

/-- The state transition of one engine operation. -/
def engineStep (s : SignerM) (op : EngineOp) : SignerM :=
  match op with
  | EngineOp.proposedBlocks blocks => handle_proposed_blocks s blocks
  | EngineOp.validateResponse response audit coordinator_id lib now =>
    (handle_block_validate_response s response audit coordinator_id lib now).1
  | EngineOp.signerMessages current_md messages lib now =>
    (handle_signer_messages s current_md messages lib now).1
  | EngineOp.nextCommand coordinator_id oracle =>
    (process_next_command s coordinator_id oracle).1
  | EngineOp.updateDkg view now => update_dkg s view now
  | EngineOp.statusCheck => s

/-- Clarity values as consumed by parse_function_args. -/
inductive ClarityValueM
  | uint (n : Nat)
  | buff (bytes : Bytes)
  | other
deriving DecidableEq, Repr

/-- Value::expect_u128: succeeds on uint values. -/
def expect_u128 : ClarityValueM → Option Nat
  | ClarityValueM.uint n => some n
  | _ => none

/-- Value::expect_buff size: succeeds on buffers of at most the given
    size. -/
def expect_buff (size : Nat) : ClarityValueM → Option Bytes
  | ClarityValueM.buff bytes => if bytes.length ≤ size then some bytes else none
  | _ => none

/-- u64::try_from on a u128 value. -/
def u64TryFrom (n : Nat) : Option Nat :=
  if n < 2 ^ 64 then some n else none

/-- Compressed::try_from followed by Point::try_from: a compressed point is
    exactly 33 bytes; validity of the curve encoding is abstracted and the
    point is modelled by its bytes. -/
def compressedPointTryFrom (bytes : Bytes) : Option Bytes :=
  if bytes.length = 33 then some bytes else none

/-- Signer::parse_function_args (signer.rs lines 1386-1401): exactly three
    arguments parse as (signer_index, point, round) and the reward cycle is
    hardwired to 0. -/
def parse_function_args : List ClarityValueM → Option (Nat × Bytes × Nat × Nat)
  | [a0, a1, a2] =>
    match expect_u128 a0 with
    | none => none
    | some i =>
      match u64TryFrom i with
      | none => none
      | some signer_index =>
        match expect_buff 33 a1 with
        | none => none
        | some point_bytes =>
          match compressedPointTryFrom point_bytes with
          | none => none
          | some point =>
            match expect_u128 a2 with
            | none => none
            | some r =>
              match u64TryFrom r with
              | none => none
              | some round => some (signer_index, point, round, 0)
  | _ => none

/-- TransactionPayload, reduced to the contract-call case inspected by
    verify_payload. -/
inductive TransactionPayloadM
  | contractCall (contract_identifier : String) (function_name : String)
      (function_args : List ClarityValueM)
  | other
deriving DecidableEq, Repr

/-- A StacksTransaction as consumed by verify_payload. -/
structure StacksTransactionM where
  payload : TransactionPayloadM
  origin_address : Nat
deriving DecidableEq, Repr

/-- SIGNERS_VOTING_NAME from the boot contracts. -/
def SIGNERS_VOTING_NAME : String := "signers-voting"

/-- VOTE_FUNCTION_NAME from the signer client module. -/
def VOTE_FUNCTION_NAME : String := "vote-for-aggregate-public-key"

/-- boot_code_id: the canonical boot contract identifier for the given
    network; the two boot addresses are opaque here. -/
def boot_code_id (name : String) (mainnet : Bool) : String :=
  (if mainnet then "SP000000000000000000002Q6VF78." else "ST000000000000000000002AMW42H.")
    ++ name

/-- u64::saturating_add 2, as used for the future-round bound. -/
def u64SaturatingAdd2 (n : Nat) : Nat :=
  min (n + 2) (2 ^ 64 - 1)

/-- The chain answers read by verify_payload for the round and reward cycle
    extracted from the transaction. -/
structure ChainViewM where
  vote_for_aggregate_public_key : Option Bytes
  last_round : Option Nat
  aggregate_public_key : Option Bytes
deriving DecidableEq, Repr

/-- Signer::verify_payload (signer.rs lines 797-864).  The chain RPC reads
    are supplied by the ChainViewM oracle; the error monad is dropped since
    the claims concern the admitted = true outcome. -/
def verify_payload (mainnet : Bool) (transaction : StacksTransactionM)
    (origin_signer_id : Nat) (chain : ChainViewM) : Bool :=
  match transaction.payload with
  | TransactionPayloadM.other => false
  | TransactionPayloadM.contractCall contract_identifier function_name function_args =>
    if contract_identifier ≠ boot_code_id SIGNERS_VOTING_NAME mainnet ∨
        function_name ≠ VOTE_FUNCTION_NAME then false
    else
      match parse_function_args function_args with
      | none => false
      | some (index, _point, round, _reward_cycle) =>
        if index ≠ origin_signer_id then false
        else if chain.vote_for_aggregate_public_key.isSome then false
        else if (match chain.last_round with
                 | some lr => chain.aggregate_public_key.isSome && decide (lr < round)
                 | none => false) then false
        else if u64SaturatingAdd2 (chain.last_round.getD 0) < round then false
        else true

/-- The hash key used by the signer db: block_info.signer_signature_hash()
    (signerdb.rs line 103). -/
def BlockInfo.signerSignatureHash (blockInfo : BlockInfo) : Bytes :=
  blockInfo.block.signer_signature_hash

/-- The blocks table of SignerDb (signerdb.rs lines 35-41): rows keyed by
    the composite primary key (reward_cycle, signer_signature_hash).  The
    serialized block_info JSON blob is modelled by the BlockInfo value
    itself, using the round-trip stability of the serde encoding. -/
structure SignerDbM where
  blocks : List ((Nat × Bytes) × BlockInfo)
deriving DecidableEq, Repr

/-- A freshly created database: the blocks table is empty. -/
def SignerDbM.empty : SignerDbM := ⟨[]⟩

/-- SignerDb::insert_block (signerdb.rs lines 96-128): INSERT OR REPLACE on
    the composite key. -/
def insert_block (db : SignerDbM) (reward_cycle : Nat) (block_info : BlockInfo) :
    SignerDbM :=
  ⟨alInsert db.blocks (reward_cycle, block_info.signerSignatureHash) block_info⟩

/-- SignerDb::block_lookup (signerdb.rs lines 75-92). -/
def block_lookup (db : SignerDbM) (reward_cycle : Nat) (hash : Bytes) : Option BlockInfo :=
  alLookup db.blocks (reward_cycle, hash)

/-- The acceptance condition exactly as the C2 claim words it: a 32-byte
    message equal to a known hash for which a yes vote is held, or a
    33-byte message ending in byte 110 whose first 32 bytes are a known
    hash for which a no vote is held.  Written from the claim text, for
    comparison against the source function. -/
def specSigShareAccepts (blocks : List (Bytes × BlockInfo))
    (request : SignatureShareRequestM) : Bool :=
  (decide (request.message.length = 32) &&
    (match alLookup blocks request.message with
     | some blockInfo => decide (blockInfo.vote = some request.message)
     | none => false)) ||
  (decide (request.message.length = 33) && decide (request.message.getD 32 0 = 110) &&
    (match alLookup blocks (request.message.take 32) with
     | some blockInfo =>
       decide (blockInfo.vote = some (request.message.take 32 ++ [110]))
     | none => false))

/-- The vote bytes determine_vote derives from the current validity flag of
    a block info. -/
def deriveVote (blockInfo : BlockInfo) : Bytes :=
  if blockInfo.valid.getD false then blockInfo.block.signer_signature_hash
  else blockInfo.block.signer_signature_hash ++ [110]

/-- Occurrences of every value in the list are contiguous from the front:
    whenever the head occurs later in the tail, it is the immediate next
    element. -/
def contig {α : Type} [DecidableEq α] : List α → Bool
  | [] => true
  | x :: l => (!(decide (x ∈ l)) || decide (l.head? = some x)) && contig l

/-- Repeated calls to process_signer_consensus_hash_view, collecting every
    NACK emitted along the way. -/
def runConsensusViewTrace : SignerM → List (CoordinatorMetadataM × CoordinatorMetadataM × Nat) →
    SignerM × List (CoordinatorMetadataM × Nat)
  | s, [] => (s, [])
  | s, c :: rest =>
    let p := process_signer_consensus_hash_view s c.1 c.2.1 c.2.2
    let r := runConsensusViewTrace p.1 rest
    (r.1, p.2 ++ r.2)

/- Concrete example values used by witnesses and counterexamples. -/

/-- A 32-byte digest used in concrete examples. -/
def hashA : Bytes := List.replicate 32 1

/-- A block carrying the digest hashA. -/
def blockA : NakamotoBlockM := ⟨hashA, []⟩

/-- A second 32-byte digest used in concrete examples. -/
def hashB : Bytes := List.replicate 32 2

/-- A block carrying the digest hashB. -/
def blockB : NakamotoBlockM := ⟨hashB, []⟩

/-- A baseline signer state with empty stores. -/
def baseSigner : SignerM :=
  { state := StateM.idle
    blocks := []
    commands := []
    signer_id := 0
    nack_messages_received := []
    nack_messages_sent := []
    stale_node_nack_policy := some ⟨60, 100⟩
    nack_threshold := some 3
    back_off_until := none
    apply_back_off_delay := false
    current_dkg_id := 0
    aggregate_public_key := none
    coordinator_message := [] }

/-- A block map holding blockA with a cached yes vote. -/
def blocksYesA : List (Bytes × BlockInfo) :=
  [(hashA, { BlockInfo.new blockA with vote := some hashA })]

/-- A block map holding blockA with a cached no vote. -/
def blocksNoA : List (Bytes × BlockInfo) :=
  [(hashA, { BlockInfo.new blockA with vote := some (hashA ++ [110]) })]

/-- A signature share request whose message is the raw 32-byte hashA. -/
def requestA : SignatureShareRequestM := ⟨hashA⟩

/-- A signer state in back-off with a queued Sign command for blockA. -/
def backOffSigner : SignerM :=
  { baseSigner with
      commands := [Command.sign blockA false none]
      back_off_until := some 1000
      apply_back_off_delay := true }

/-- An update_dkg view with no aggregate key on chain and nothing pending. -/
def viewQuiet : UpdateDkgView := ⟨none, 0, [], false⟩

/-- A library oracle returning no operation results and an idle
    coordinator. -/
def libQuiet : LibOracle := ⟨[], false⟩

/-- An exec oracle where the chain returns last round 0 and both round
    starts succeed. -/
def oracleOk : ExecOracle := ⟨some (some 0), true, true⟩

/-- A nonce request whose message is the serialized blockA. -/
def nonceReqA : NonceRequestM := ⟨blockEncode blockA⟩

/-- The baseline signer after receiving a nonce request for the unseen
    blockA. -/
def signerAfterNonce : SignerM := (validate_nonce_request baseSigner nonceReqA).1

/-- signerAfterNonce after blockA arrives again in a ProposedBlocks
    event. -/
def signerAfterReproposal : SignerM := handle_proposed_blocks signerAfterNonce [blockA]

/-- A transaction voting with signer index 0, a 33-byte point, round 1. -/
def txC8 : StacksTransactionM :=
  ⟨TransactionPayloadM.contractCall (boot_code_id SIGNERS_VOTING_NAME false)
      VOTE_FUNCTION_NAME
      [ClarityValueM.uint 0, ClarityValueM.buff (List.replicate 33 2), ClarityValueM.uint 1],
   5⟩

/-- A chain view with last round 3, an aggregate key present, no prior
    vote. -/
def chainC8 : ChainViewM := ⟨none, some 3, some (List.replicate 33 9)⟩

/-- Relation between a stored BlockInfo and its update by the packet
    collection pass: block, validity and signed_over are preserved and the
    vote is either untouched or rewritten to the value derived from the
    unchanged validity flag. -/
def NrEvolves (bi bi2 : BlockInfo) : Prop :=
  bi2.block = bi.block ∧ bi2.valid = bi.valid ∧ bi2.signed_over = bi.signed_over ∧
  (bi2.vote = bi.vote ∨ bi2.vote = some (deriveVote bi))

/-- A block info for blockA with a cached yes vote, validated and signed
    over. -/
def votedBlockInfo : BlockInfo :=
  { block := blockA, vote := some hashA, valid := some true, nonce_request := none,
    signed_over := true }

/-- A signer whose store holds blockA as votedBlockInfo. -/
def votedSigner : SignerM :=
  { baseSigner with blocks := [(hashA, votedBlockInfo)] }

/-- A local chain view at height 10. -/
def mdA : CoordinatorMetadataM := ⟨1, 10⟩

/-- A later local chain view at height 11. -/
def mdB : CoordinatorMetadataM := ⟨2, 11⟩

/-- A stale remote chain view at height 5. -/
def mdStale : CoordinatorMetadataM := ⟨0, 5⟩

/-- A consensus-view trace whose local metadata reverts from mdA to mdB and
    back to mdA, each call seeing the stale sender 1. -/
def traceRevert : List (CoordinatorMetadataM × CoordinatorMetadataM × Nat) :=
  [(mdA, mdStale, 1), (mdB, mdStale, 1), (mdA, mdStale, 1)]

/-- A consensus-view trace whose local metadata advances from mdA to mdB
    without ever reverting. -/
def traceContig : List (CoordinatorMetadataM × CoordinatorMetadataM × Nat) :=
  [(mdA, mdStale, 1), (mdB, mdStale, 2)]

/- Helper lemmas about the association-list model of HashMap. -/

theorem alLookup_alInsert {α β : Type} [DecidableEq α] (m : List (α × β)) (k : α) (v : β)
    (k' : α) :
    alLookup (alInsert m k v) k' = if k' = k then some v else alLookup m k' := by
  induction m with
  | nil => by_cases h : k' = k <;> simp [alInsert, alLookup, h]
  | cons p rest ih =>
    obtain ⟨a, b⟩ := p
    by_cases hka : k = a <;> by_cases hk'a : k' = a <;> by_cases hk'k : k' = k <;>
      simp_all [alInsert, alLookup]

theorem alLookup_alErase {α β : Type} [DecidableEq α] (m : List (α × β)) (k k' : α) :
    alLookup (alErase m k) k' = if k' = k then none else alLookup m k' := by
  induction m with
  | nil => by_cases h : k' = k <;> simp [alErase, alLookup, h]
  | cons p rest ih =>
    obtain ⟨a, b⟩ := p
    by_cases hka : k = a <;> by_cases hk'a : k' = a <;> by_cases hk'k : k' = k <;>
      simp_all [alErase, alLookup]

theorem alInsert_eq_self {α β : Type} [DecidableEq α] (m : List (α × β)) (k : α) (v : β)
    (h : alLookup m k = some v) : alInsert m k v = m := by
  induction m with
  | nil => simp [alLookup] at h
  | cons p rest ih =>
    obtain ⟨a, b⟩ := p
    by_cases hka : k = a
    · subst hka
      simp [alLookup] at h
      simp [alInsert, h]
    · simp [alLookup, hka] at h
      simp [alInsert, hka, ih h]

theorem alInsert_length {α β : Type} [DecidableEq α] (m : List (α × β)) (k : α) (v : β) :
    (alInsert m k v).length =
      if (alLookup m k).isSome then m.length else m.length + 1 := by
  induction m with
  | nil => simp [alInsert, alLookup]
  | cons p rest ih =>
    obtain ⟨a, b⟩ := p
    by_cases hka : k = a <;> simp [alInsert, alLookup, hka, ih] <;> split <;> simp

theorem alInsert_keys {α β : Type} [DecidableEq α] (m : List (α × β)) (k : α) (v : β) :
    (alInsert m k v).map Prod.fst =
      if (alLookup m k).isSome then m.map Prod.fst else m.map Prod.fst ++ [k] := by
  induction m with
  | nil => simp [alInsert, alLookup]
  | cons p rest ih =>
    obtain ⟨a, b⟩ := p
    by_cases hka : k = a <;> simp [alInsert, alLookup, hka, ih] <;> split <;> simp

theorem setInsert_mem_self (s : List Nat) (x : Nat) : x ∈ (setInsert s x).1 := by
  unfold setInsert
  by_cases h : x ∈ s
  · simp [h]
  · simp [h]

theorem reset_nack_back_off_commands (s : SignerM) (now : Nat) :
    (reset_nack_back_off s now).commands = s.commands := by
  unfold reset_nack_back_off
  split
  · rfl
  · rfl

theorem reset_nack_back_off_blocks (s : SignerM) (now : Nat) :
    (reset_nack_back_off s now).blocks = s.blocks := by
  unfold reset_nack_back_off
  split
  · rfl
  · rfl

theorem process_operation_result_commands (s : SignerM) (r : OperationResultM) :
    (process_operation_result s r).1.commands = s.commands := by
  cases r <;> rfl

theorem process_operation_results_commands (rs : List OperationResultM) (s : SignerM) :
    (process_operation_results s rs).1.commands = s.commands := by
  induction rs generalizing s with
  | nil => rfl
  | cons r rest ih =>
    show (process_operation_results (process_operation_result s r).1 rest).1.commands =
      s.commands
    rw [ih, process_operation_result_commands]

theorem handle_packets_commands (s : SignerM) (packets : List PacketMsgM) (lib : LibOracle) :
    (handle_packets s packets lib).1.commands = s.commands := by
  unfold handle_packets
  by_cases h1 : lib.operation_results ≠ []
  · simp [h1, finish_operation, process_operation_results_commands]
  · by_cases h2 : packets ≠ [] ∧ lib.coordinator_busy
    · simp [h1, h2, update_operation]
    · simp [h1, h2]

theorem alErase_lookup_sub {α β : Type} [DecidableEq α] (m : List (α × β)) (k k' : α)
    (v : β) (h : alLookup (alErase m k) k' = some v) : alLookup m k' = some v := by
  rw [alLookup_alErase] at h
  by_cases hk : k' = k
  · simp [hk] at h
  · simpa [hk] using h

theorem process_signature_blocks_sub (blocks : List (Bytes × BlockInfo))
    (key : Option Bytes) (message : Bytes) (valid : Bool) (h : Bytes) (bi : BlockInfo)
    (hl : alLookup (process_signature blocks key message valid).1 h = some bi) :
    alLookup blocks h = some bi := by
  unfold process_signature at hl
  cases key with
  | none => exact hl
  | some k =>
    simp only at hl
    cases hsh : sha512Trunc256FromBytes
        (if message.length > 32 then message.take 32 else message) with
    | none => simp only [hsh] at hl; exact hl
    | some hash =>
      simp only [hsh] at hl
      by_cases hv : valid = false
      · rw [if_pos hv] at hl
        exact alErase_lookup_sub _ _ _ _ hl
      · rw [if_neg hv] at hl
        by_cases hm : message = hash
        · rw [if_pos hm] at hl
          exact alErase_lookup_sub _ _ _ _ hl
        · rw [if_neg hm] at hl
          exact alErase_lookup_sub _ _ _ _ hl

theorem process_sign_error_blocks_sub (blocks : List (Bytes × BlockInfo))
    (message : Bytes) (e : SignErrorM) (h : Bytes) (bi : BlockInfo)
    (hl : alLookup (process_sign_error blocks message e).1 h = some bi) :
    alLookup blocks h = some bi := by
  unfold process_sign_error at hl
  cases e with
  | nonceTimeout => exact hl
  | aggregator => exact hl
  | insufficientSigners =>
    cases hdec : blockDecode message with
    | some block => simp only [hdec] at hl; exact hl
    | none =>
      simp only [hdec] at hl
      cases hsh : sha512Trunc256FromBytes
          (if message.length > 32 then message.take 32 else message) with
      | none => simp only [hsh] at hl; exact hl
      | some hash =>
        simp only [hsh] at hl
        cases hlk : alLookup blocks hash with
        | none => simp only [hlk] at hl; exact hl
        | some blockInfo =>
          simp only [hlk] at hl
          exact alErase_lookup_sub _ _ _ _ hl

theorem process_operation_result_blocks_sub (s : SignerM) (r : OperationResultM)
    (h : Bytes) (bi : BlockInfo)
    (hl : alLookup (process_operation_result s r).1.blocks h = some bi) :
    alLookup s.blocks h = some bi := by
  cases r with
  | sign valid => exact process_signature_blocks_sub _ _ _ _ _ _ hl
  | signTaproot => exact hl
  | dkg => exact hl
  | signError e => exact process_sign_error_blocks_sub _ _ _ _ _ hl
  | dkgError => exact hl

theorem process_operation_results_blocks_sub (rs : List OperationResultM) (s : SignerM)
    (h : Bytes) (bi : BlockInfo)
    (hl : alLookup (process_operation_results s rs).1.blocks h = some bi) :
    alLookup s.blocks h = some bi := by
  induction rs generalizing s with
  | nil => exact hl
  | cons r rest ih =>
    have hl2 : alLookup (process_operation_results (process_operation_result s r).1 rest).1.blocks
        h = some bi := hl
    exact process_operation_result_blocks_sub _ _ _ _ (ih _ hl2)

theorem handle_packets_blocks_sub (s : SignerM) (packets : List PacketMsgM)
    (lib : LibOracle) (h : Bytes) (bi : BlockInfo)
    (hl : alLookup (handle_packets s packets lib).1.blocks h = some bi) :
    alLookup s.blocks h = some bi := by
  unfold handle_packets at hl
  by_cases h1 : lib.operation_results ≠ []
  · rw [if_pos h1] at hl
    exact process_operation_results_blocks_sub _ _ _ _ hl
  · rw [if_neg h1] at hl
    by_cases h2 : packets ≠ [] ∧ lib.coordinator_busy
    · rw [if_pos h2] at hl
      exact hl
    · rw [if_neg h2] at hl
      exact hl

/- Claim theorems. -/

/-- C1: for every signature-share request that validation accepts, the
    outgoing message equals the locally cached vote for the block whose
    hash the original request message referenced. -/
theorem C1_sig_share_uses_cached_vote (blocks : List (Bytes × BlockInfo))
    (request request1 : SignatureShareRequestM)
    (h : validate_signature_share_request blocks request = some request1) :
    ∃ hashBytes hash blockInfo,
      requestHashBytes request.message = some hashBytes ∧
      sha512Trunc256FromBytes hashBytes = some hash ∧
      alLookup blocks hash = some blockInfo ∧
      blockInfo.vote = some request1.message := by
  unfold validate_signature_share_request at h
  cases hrb : requestHashBytes request.message with
  | none => simp [hrb] at h
  | some hashBytes =>
    simp only [hrb] at h
    cases hsh : sha512Trunc256FromBytes hashBytes with
    | none => simp [hsh] at h
    | some hash =>
      simp only [hsh] at h
      cases hlk : alLookup blocks hash with
      | none => simp [hlk] at h
      | some blockInfo =>
        simp only [hlk] at h
        cases hv : blockInfo.vote with
        | none => simp [hv] at h
        | some vote =>
          simp only [hv, Option.some.injEq] at h
          refine ⟨hashBytes, hash, blockInfo, rfl, hsh, hlk, ?_⟩
          rw [hv, ← h]

/-- C1 witness: a request for hashA against a store holding a yes vote for
    hashA is accepted and rewritten to that vote. -/
theorem C1_sig_share_uses_cached_vote_witness :
    ∃ hashBytes hash blockInfo,
      requestHashBytes requestA.message = some hashBytes ∧
      sha512Trunc256FromBytes hashBytes = some hash ∧
      alLookup blocksYesA hash = some blockInfo ∧
      blockInfo.vote = some (SignatureShareRequestM.mk hashA).message :=
  C1_sig_share_uses_cached_vote blocksYesA requestA ⟨hashA⟩ (by decide)

/-- C2 counterexample: for a 32-byte request message whose block holds a no
    vote, the source accepts (and rewrites to the no vote), while the claim
    as stated says only an existing yes vote admits a 32-byte message. -/
theorem C2_counterexample :
    (validate_signature_share_request blocksNoA requestA).isSome = true ∧
    specSigShareAccepts blocksNoA requestA = false := by decide

/-- C2 amended: a signature-share request is accepted iff its message is 32
    bytes naming a known block with any cached vote, or 33 bytes ending in
    byte 110 whose first 32 bytes name a known block with any cached vote;
    the cached vote need not match the form of the request message. -/
theorem C2_accept_iff (blocks : List (Bytes × BlockInfo)) (request : SignatureShareRequestM) :
    (validate_signature_share_request blocks request).isSome = true ↔
    ((request.message.length = 32 ∧
        ∃ blockInfo vote, alLookup blocks request.message = some blockInfo ∧
          blockInfo.vote = some vote) ∨
     (request.message.length = 33 ∧ request.message.getD 32 0 = 110 ∧
        ∃ blockInfo vote, alLookup blocks (request.message.take 32) = some blockInfo ∧
          blockInfo.vote = some vote)) := by
  unfold validate_signature_share_request
  by_cases h33 : request.message.length = 33 ∧ request.message.getD 32 0 = 110
  · have hrb : requestHashBytes request.message = some (request.message.take 32) := by
      unfold requestHashBytes
      rw [if_pos h33]
    have hlen : (request.message.take 32).length = 32 := by
      rw [List.length_take, h33.1]
      decide
    have hsh : sha512Trunc256FromBytes (request.message.take 32) =
        some (request.message.take 32) := by
      unfold sha512Trunc256FromBytes
      rw [if_pos hlen]
    simp only [hrb, hsh]
    cases hlk : alLookup blocks (request.message.take 32) with
    | none => simp [hlk, h33.1]
    | some blockInfo =>
      cases hv : blockInfo.vote with
      | none => simp [hlk, hv, h33.1]
      | some vote =>
        constructor
        · intro _
          refine Or.inr ⟨h33.1, h33.2, blockInfo, vote, ?_, hv⟩
          first
          | exact hlk
          | rfl
        · intro _
          simp [hlk, hv]
  · have hrb2 : requestHashBytes request.message =
        if request.message.length = 32 then some request.message else none := by
      unfold requestHashBytes
      rw [if_neg h33]
    by_cases h32 : request.message.length = 32
    · have hrb : requestHashBytes request.message = some request.message := by
        rw [hrb2, if_pos h32]
      have hsh : sha512Trunc256FromBytes request.message = some request.message := by
        unfold sha512Trunc256FromBytes
        rw [if_pos h32]
      simp only [hrb, hsh]
      cases hlk : alLookup blocks request.message with
      | none => simp [hlk, h32]
      | some blockInfo =>
        cases hv : blockInfo.vote with
        | none => simp [hlk, hv, h32]
        | some vote => simp [hlk, hv, h32]
    · have hrb : requestHashBytes request.message = none := by
        rw [hrb2, if_neg h32]
      simp only [hrb]
      constructor
      · intro habs
        simp at habs
      · intro hcase
        rcases hcase with ⟨hl, _⟩ | ⟨hl, hg, _⟩
        · exact absurd hl h32
        · exact absurd ⟨hl, hg⟩ h33

/-- C8: a vote transaction is admitted by verify_payload only if, when the
    chain records both a last round and an aggregate key for the cycle, its
    round is at most the last round, and in every case its round is at most
    the recorded last round (0 when absent) plus 2. -/
theorem C8_round_bounds (mainnet : Bool) (transaction : StacksTransactionM)
    (origin_signer_id : Nat) (chain : ChainViewM) (ci fn : String)
    (args : List ClarityValueM) (index : Nat) (point : Bytes) (round rc : Nat)
    (hpayload : transaction.payload = TransactionPayloadM.contractCall ci fn args)
    (hargs : parse_function_args args = some (index, point, round, rc))
    (hok : verify_payload mainnet transaction origin_signer_id chain = true) :
    (∀ lr, chain.last_round = some lr → chain.aggregate_public_key.isSome = true →
      round ≤ lr) ∧
    round ≤ chain.last_round.getD 0 + 2 := by
  unfold verify_payload at hok
  simp only [hpayload] at hok
  simp only [hargs] at hok
  by_cases h1 : ci ≠ boot_code_id SIGNERS_VOTING_NAME mainnet ∨ fn ≠ VOTE_FUNCTION_NAME
  · simp [h1] at hok
  · rw [if_neg h1] at hok
    by_cases h2 : index ≠ origin_signer_id
    · simp [h2] at hok
    · rw [if_neg h2] at hok
      by_cases h3 : chain.vote_for_aggregate_public_key.isSome = true
      · simp [h3] at hok
      · rw [if_neg h3] at hok
        by_cases h4 : (match chain.last_round with
            | some lr => chain.aggregate_public_key.isSome && decide (lr < round)
            | none => false) = true
        · simp only [h4, if_true] at hok
          exact absurd hok (by simp)
        · rw [if_neg h4] at hok
          by_cases h5 : u64SaturatingAdd2 (chain.last_round.getD 0) < round
          · simp [h5] at hok
          · constructor
            · intro lr hlr hagg
              rw [hlr] at h4
              simp only [hagg, Bool.true_and, decide_eq_true_eq] at h4
              exact Nat.le_of_not_lt h4
            · have h6 : round ≤ u64SaturatingAdd2 (chain.last_round.getD 0) :=
                Nat.le_of_not_lt h5
              calc round ≤ min (chain.last_round.getD 0 + 2) (2 ^ 64 - 1) := h6
                _ ≤ chain.last_round.getD 0 + 2 := Nat.min_le_left _ _

/-- C8 witness: a well-formed vote for round 1 against a chain with last
    round 3 and an aggregate key is admitted, and satisfies both bounds. -/
theorem C8_round_bounds_witness :
    (∀ lr, chainC8.last_round = some lr → chainC8.aggregate_public_key.isSome = true →
      1 ≤ lr) ∧
    1 ≤ chainC8.last_round.getD 0 + 2 :=
  C8_round_bounds false txC8 0 chainC8 (boot_code_id SIGNERS_VOTING_NAME false)
    VOTE_FUNCTION_NAME
    [ClarityValueM.uint 0, ClarityValueM.buff (List.replicate 33 2), ClarityValueM.uint 1]
    0 (List.replicate 33 2) 1 0 rfl (by decide) (by decide)

/-- C9: inserting a BlockInfo under reward cycle c into a fresh block store
    and looking it up under (c, hash) returns exactly that BlockInfo, while
    the same hash under any other reward cycle returns none. -/
theorem C9_blockstore_roundtrip (c c2 : Nat) (blockInfo : BlockInfo) (h : c ≠ c2) :
    block_lookup (insert_block SignerDbM.empty c blockInfo) c
        blockInfo.signerSignatureHash = some blockInfo ∧
    block_lookup (insert_block SignerDbM.empty c blockInfo) c2
        blockInfo.signerSignatureHash = none := by
  constructor
  · simp [block_lookup, insert_block, SignerDbM.empty, alInsert, alLookup]
  · simp [block_lookup, insert_block, SignerDbM.empty, alInsert, alLookup]
    intro hc
    exact absurd hc (fun hc2 => h hc2.symm)

/-- C9 witness: the round trip at reward cycles 1 and 2 with a concrete
    block. -/
theorem C9_blockstore_roundtrip_witness :
    block_lookup (insert_block SignerDbM.empty 1 (BlockInfo.new blockA)) 1
        (BlockInfo.new blockA).signerSignatureHash = some (BlockInfo.new blockA) ∧
    block_lookup (insert_block SignerDbM.empty 1 (BlockInfo.new blockA)) 2
        (BlockInfo.new blockA).signerSignatureHash = none :=
  C9_blockstore_roundtrip 1 2 (BlockInfo.new blockA) (by decide)

/-- C3 counterexample: at time 0, before the back-off deadline 1000 and
    with apply_back_off_delay set, a Sign command that was already queued
    still makes the coordinator issue a Sign round-start packet, refuting
    the claim that no round-start is issued while the back-off is
    active. -/
theorem C3_counterexample :
    backOffSigner.apply_back_off_delay = true ∧
    backOffSigner.back_off_until = some 1000 ∧ 0 < 1000 ∧
    (process_next_command backOffSigner 0 oracleOk).2 = [RoundStart.sign blockA] := by
  refine ⟨rfl, rfl, by decide, by decide⟩

/-- C3 amended: while apply_back_off_delay is set the engine enqueues no
    new command: update_dkg pushes no Dkg command and a block validation
    response pushes no Sign command; a command that was queued before the
    back-off began may however still execute and start a round. -/
theorem C3_backoff_blocks_enqueue (s : SignerM) (view : UpdateDkgView) (now : Nat)
    (response : BlockValidateResponseM) (audit : Bool) (coordinator_id : Nat)
    (lib : LibOracle) (hback : s.apply_back_off_delay = true) :
    (update_dkg s view now).commands = s.commands ∧
    (handle_block_validate_response s response audit coordinator_id lib now).1.commands =
      s.commands := by
  constructor
  · unfold update_dkg
    by_cases hagg : view.new_aggregate_public_key.isSome = true ∧
        s.aggregate_public_key ≠ view.new_aggregate_public_key
    · simp [hagg, hback, reset_nack_back_off_commands]
    · simp [hagg, hback, reset_nack_back_off_commands]
  · unfold handle_block_validate_response
    cases response with
    | ok hash =>
      cases hlk : alLookup s.blocks hash with
      | none => simp [hlk]
      | some blockInfo =>
        simp only [hlk]
        cases hnr : blockInfo.nonce_request with
        | some nonceRequest =>
          simp [hnr, reset_nack_back_off_commands, handle_packets_commands]
        | none =>
          simp [hnr, hback, reset_nack_back_off_commands]
    | reject hash =>
      cases hlk : alLookup s.blocks hash with
      | none => simp [hlk]
      | some blockInfo =>
        simp only [hlk]
        cases hnr : blockInfo.nonce_request with
        | some nonceRequest =>
          simp [hnr, reset_nack_back_off_commands, handle_packets_commands]
        | none =>
          simp [hnr, hback, reset_nack_back_off_commands]

/-- C3 amended witness: the amended statement at the concrete back-off
    state. -/
theorem C3_backoff_blocks_enqueue_witness :
    (update_dkg backOffSigner viewQuiet 0).commands = backOffSigner.commands ∧
    (handle_block_validate_response backOffSigner (BlockValidateResponseM.ok hashA) true 0
        libQuiet 0).1.commands = backOffSigner.commands :=
  C3_backoff_blocks_enqueue backOffSigner viewQuiet 0 (BlockValidateResponseM.ok hashA)
    true 0 libQuiet rfl

/-- C5 counterexample: with an aggregate key set and an invalid signature
    over the 32-byte message hashA, no BlockResponse is broadcast, yet the
    entry for hashA is removed from the store, refuting that the entry is
    removed exactly when a BlockResponse is broadcast. -/
theorem C5_counterexample :
    (process_signature blocksYesA (some hashB) hashA false).2 = none ∧
    alLookup blocksYesA hashA =
      some { BlockInfo.new blockA with vote := some hashA } ∧
    alLookup (process_signature blocksYesA (some hashB) hashA false).1 hashA = none := by
  refine ⟨by decide, by decide, by decide⟩

/-- C5 amended: processing a signing result removes the block entry exactly
    when the aggregate key is set and the message carries at least 32 bytes
    (the signature verification outcome does not matter), while a
    BlockResponse is broadcast exactly when the signature additionally
    verifies, Accepted precisely for the bare 32-byte hash message. -/
theorem C5_process_signature_effects (blocks : List (Bytes × BlockInfo))
    (aggregate_public_key : Option Bytes) (message : Bytes) (signature_valid : Bool) :
    ((process_signature blocks aggregate_public_key message signature_valid).2.isSome =
        true ↔
      (aggregate_public_key.isSome = true ∧ 32 ≤ message.length ∧
        signature_valid = true)) ∧
    ((process_signature blocks aggregate_public_key message signature_valid).1 =
      if aggregate_public_key.isSome = true ∧ 32 ≤ message.length then
        alErase blocks (message.take 32)
      else blocks) ∧
    ((process_signature blocks aggregate_public_key message signature_valid).2 =
        some (BlockResponseM.accepted (message.take 32)) ↔
      (aggregate_public_key.isSome = true ∧ message.length = 32 ∧
        signature_valid = true)) := by
  cases aggregate_public_key with
  | none => simp [process_signature]
  | some key =>
    by_cases hgt : message.length > 32
    · have htake : (message.take 32).length = 32 := by
        rw [List.length_take]
        omega
      have hsh : sha512Trunc256FromBytes (message.take 32) = some (message.take 32) := by
        unfold sha512Trunc256FromBytes
        rw [if_pos htake]
      have hne : message ≠ message.take 32 := by
        intro habs
        have := congrArg List.length habs
        rw [htake] at this
        omega
      have hne2 : ¬message.length = 32 := by omega
      simp only [process_signature, if_pos hgt, hsh]
      cases signature_valid with
      | false => simp [hne, hgt, hne2, Nat.le_of_lt hgt]
      | true => simp [hne, hgt, hne2, Nat.le_of_lt hgt]
    · by_cases h32 : message.length = 32
      · have htake : message.take 32 = message := List.take_of_length_le (by omega)
        have hsh : sha512Trunc256FromBytes message = some message := by
          unfold sha512Trunc256FromBytes
          rw [if_pos h32]
        simp only [process_signature, if_neg hgt, hsh]
        cases signature_valid with
        | false => simp [htake, h32]
        | true => simp [htake, h32]
      · have hlt : message.length < 32 := by omega
        have hsh : sha512Trunc256FromBytes message = none := by
          unfold sha512Trunc256FromBytes
          rw [if_neg h32]
        simp only [process_signature, if_neg hgt, hsh]
        simp [h32, Nat.not_le.mpr hlt]

/-- C7: an inbound NACK targeted at this signer whose metadata carries a
    strictly greater burn block height records the sender under that
    metadata, and once the recorded senders for it reach the configured
    threshold floor(total signers times percent over 100) the back-off is
    armed until now plus the policy duration; any other NACK changes
    nothing. -/
theorem C7_nack_recording (s : SignerM) (nack : NackMessageM)
    (current_md : CoordinatorMetadataM) (now : Nat) (policy : StaleNodeNackPolicyM)
    (total percent : Nat)
    (hthreshold : s.nack_threshold = some (get_nack_threshold total percent)) :
    (¬(nack.target_signer_id = s.signer_id ∧
        current_md.burn_block_height < nack.coordinator_metadata.burn_block_height) →
      process_nack_message s nack current_md now policy = s) ∧
    ((nack.target_signer_id = s.signer_id ∧
        current_md.burn_block_height < nack.coordinator_metadata.burn_block_height) →
      ∃ senders,
        alLookup (process_nack_message s nack current_md now policy).nack_messages_received
            nack.coordinator_metadata = some senders ∧
        nack.sender_signer_id ∈ senders ∧
        (get_nack_threshold total percent ≤ senders.length →
          (process_nack_message s nack current_md now policy).apply_back_off_delay = true ∧
          (process_nack_message s nack current_md now policy).back_off_until =
            some (now + policy.back_off_duration_ms))) := by
  constructor
  · intro hguard
    unfold process_nack_message
    rw [if_neg hguard]
  · intro hguard
    unfold process_nack_message
    rw [if_pos hguard]
    simp only [hthreshold]
    have hsame : (alLookup (alInsert s.nack_messages_received nack.coordinator_metadata
        (setInsert ((alLookup s.nack_messages_received nack.coordinator_metadata).getD [])
          nack.sender_signer_id).1) nack.coordinator_metadata).getD [] =
        (setInsert ((alLookup s.nack_messages_received nack.coordinator_metadata).getD [])
          nack.sender_signer_id).1 := by
      rw [alLookup_alInsert]
      simp
    rw [hsame]
    by_cases hcount : get_nack_threshold total percent ≤
        (setInsert ((alLookup s.nack_messages_received nack.coordinator_metadata).getD [])
          nack.sender_signer_id).1.length
    · rw [if_pos hcount]
      refine ⟨(setInsert ((alLookup s.nack_messages_received
          nack.coordinator_metadata).getD []) nack.sender_signer_id).1, ?_,
        setInsert_mem_self _ _, fun _ => ⟨rfl, rfl⟩⟩
      rw [alLookup_alInsert]
      simp
    · rw [if_neg hcount]
      refine ⟨(setInsert ((alLookup s.nack_messages_received
          nack.coordinator_metadata).getD []) nack.sender_signer_id).1, ?_,
        setInsert_mem_self _ _, fun hle => absurd hle hcount⟩
      rw [alLookup_alInsert]
      simp

/-- C7 witness: the first NACK from signer 1 at height 101 against local
    height 100 is recorded; with threshold 3 the back-off implication is
    vacuous here, and the no-op half fires on an untargeted NACK. -/
theorem C7_nack_recording_witness :
    ∃ senders,
      alLookup (process_nack_message baseSigner ⟨1, 0, ⟨7, 101⟩⟩ ⟨3, 100⟩ 5
          ⟨60, 100⟩).nack_messages_received (⟨7, 101⟩ : CoordinatorMetadataM) =
        some senders ∧
      (1 : Nat) ∈ senders ∧
      (get_nack_threshold 5 60 ≤ senders.length →
        (process_nack_message baseSigner ⟨1, 0, ⟨7, 101⟩⟩ ⟨3, 100⟩ 5
            ⟨60, 100⟩).apply_back_off_delay = true ∧
        (process_nack_message baseSigner ⟨1, 0, ⟨7, 101⟩⟩ ⟨3, 100⟩ 5
            ⟨60, 100⟩).back_off_until = some (5 + 100)) :=
  (C7_nack_recording baseSigner ⟨1, 0, ⟨7, 101⟩⟩ ⟨3, 100⟩ 5 ⟨60, 100⟩ 5 60
    (by decide)).2 (by decide)

/-- C10 counterexample: a nonce request for the unseen blockA creates the
    entry with signed_over already true, but after blockA is received again
    in a ProposedBlocks event the entry is reset and a subsequent Sign
    command is not ignored: it starts a signing round. -/
theorem C10_counterexample :
    (alLookup signerAfterNonce.blocks blockA.signer_signature_hash).map
        BlockInfo.signed_over = some true ∧
    (execute_command signerAfterReproposal oracleOk (Command.sign blockA false none)).2 =
      [RoundStart.sign blockA] := by
  refine ⟨by decide, by decide⟩

/-- C10 amended: an unseen nonce request inserts a BlockInfo whose
    signed_over flag is true from creation and is itself rejected, and any
    Sign command executed while the stored entry still has signed_over true
    is ignored outright; the guarantee lapses once the entry is replaced by
    a ProposedBlocks re-insertion or removed after a signing result. -/
theorem C10_nonce_request_sign_guard :
    (∀ (block : NakamotoBlockM) (req : NonceRequestM),
      (BlockInfo.new_with_request block req).signed_over = true) ∧
    (∀ (s : SignerM) (req : NonceRequestM) (block : NakamotoBlockM),
      blockDecode req.message = some block →
      alLookup s.blocks block.signer_signature_hash = none →
      (alLookup (validate_nonce_request s req).1.blocks block.signer_signature_hash =
          some (BlockInfo.new_with_request block req) ∧
        (validate_nonce_request s req).2 = none)) ∧
    (∀ (s : SignerM) (oracle : ExecOracle) (block : NakamotoBlockM) (it : Bool)
      (mr : Option Nat) (bi : BlockInfo),
      alLookup s.blocks block.signer_signature_hash = some bi →
      bi.signed_over = true →
      execute_command s oracle (Command.sign block it mr) = (s, [])) := by
  refine ⟨fun block req => rfl, ?_, ?_⟩
  · intro s req block hdec hlk
    unfold validate_nonce_request
    simp only [hdec, hlk]
    exact ⟨by simp [alLookup_alInsert], trivial⟩
  · intro s oracle block it mr bi hlk hsigned
    unfold execute_command
    simp only [hlk, hsigned, if_pos]

/-- C10 amended witness: the amended statement instantiated at the
    concrete nonce-request scenario for blockA. -/
theorem C10_nonce_request_sign_guard_witness :
    (BlockInfo.new_with_request blockA nonceReqA).signed_over = true ∧
    (alLookup (validate_nonce_request baseSigner nonceReqA).1.blocks
        blockA.signer_signature_hash =
      some (BlockInfo.new_with_request blockA nonceReqA) ∧
      (validate_nonce_request baseSigner nonceReqA).2 = none) ∧
    execute_command signerAfterNonce oracleOk (Command.sign blockA false none) =
      (signerAfterNonce, []) :=
  ⟨C10_nonce_request_sign_guard.1 blockA nonceReqA,
   C10_nonce_request_sign_guard.2.1 baseSigner nonceReqA blockA (by decide) (by decide),
   C10_nonce_request_sign_guard.2.2 signerAfterNonce oracleOk blockA false none
     (BlockInfo.new_with_request blockA nonceReqA) (by decide) (by decide)⟩

theorem NrEvolves.rfl (bi : BlockInfo) : NrEvolves bi bi := ⟨by rfl, by rfl, by rfl, Or.inl (by rfl)⟩

theorem NrEvolves.deriveVote_eq {bi bi2 : BlockInfo} (h : NrEvolves bi bi2) :
    deriveVote bi2 = deriveVote bi := by
  unfold deriveVote
  rw [h.1, h.2.1]

theorem NrEvolves.trans {bi bi2 bi3 : BlockInfo} (h1 : NrEvolves bi bi2)
    (h2 : NrEvolves bi2 bi3) : NrEvolves bi bi3 := by
  refine ⟨h2.1.trans h1.1, h2.2.1.trans h1.2.1, h2.2.2.1.trans h1.2.2.1, ?_⟩
  rcases h2.2.2.2 with hv | hv
  · rw [hv]
    exact h1.2.2.2
  · rw [hv, h1.deriveVote_eq]
    exact Or.inr (by rfl)

theorem pschv_blocks (s : SignerM) (a b : CoordinatorMetadataM) (i : Nat) :
    (process_signer_consensus_hash_view s a b i).1.blocks = s.blocks := by
  unfold process_signer_consensus_hash_view
  dsimp only
  split_ifs <;> rfl

theorem pnm_blocks (s : SignerM) (nack : NackMessageM) (md : CoordinatorMetadataM)
    (now : Nat) (policy : StaleNodeNackPolicyM) :
    (process_nack_message s nack md now policy).blocks = s.blocks := by
  unfold process_nack_message
  dsimp only
  by_cases hg : nack.target_signer_id = s.signer_id ∧
      md.burn_block_height < nack.coordinator_metadata.burn_block_height
  · rw [if_pos hg]
    cases hth : s.nack_threshold with
    | none => rfl
    | some th =>
      dsimp only
      split
      · rfl
      · rfl
  · rw [if_neg hg]

theorem update_dkg_blocks (s : SignerM) (view : UpdateDkgView) (now : Nat) :
    (update_dkg s view now).blocks = s.blocks := by
  unfold update_dkg
  dsimp only
  split_ifs <;> simp [reset_nack_back_off_blocks]

theorem validate_nonce_request_evolves (s : SignerM) (req : NonceRequestM) (h : Bytes)
    (bi : BlockInfo) (hb : alLookup s.blocks h = some bi) :
    ∃ bi2, alLookup (validate_nonce_request s req).1.blocks h = some bi2 ∧
      NrEvolves bi bi2 := by
  unfold validate_nonce_request
  cases hdec : blockDecode req.message with
  | none => exact ⟨bi, hb, NrEvolves.rfl bi⟩
  | some block =>
    simp only [hdec]
    cases hlk : alLookup s.blocks block.signer_signature_hash with
    | none =>
      refine ⟨bi, ?_, NrEvolves.rfl bi⟩
      have hne : h ≠ block.signer_signature_hash := by
        intro heq
        rw [heq, hlk] at hb
        cases hb
      simp only [alLookup_alInsert, if_neg hne]
      exact hb
    | some blockInfo =>
      simp only [hlk]
      cases hval : blockInfo.valid with
      | none =>
        simp only [hval]
        by_cases heq : h = block.signer_signature_hash
        · have hbi : bi = blockInfo := by
            rw [heq, hlk] at hb
            exact (Option.some.inj hb).symm
          refine ⟨{ blockInfo with nonce_request := some req }, ?_, ?_⟩
          · simp only [alLookup_alInsert, if_pos heq]
            rw [hval]
          · rw [hbi]
            exact ⟨by rfl, by rfl, by rfl, Or.inl (by rfl)⟩
        · refine ⟨bi, ?_, NrEvolves.rfl bi⟩
          simp only [alLookup_alInsert, if_neg heq]
          exact hb
      | some v =>
        simp only [hval]
        by_cases heq : h = block.signer_signature_hash
        · have hbi : bi = blockInfo := by
            rw [heq, hlk] at hb
            exact (Option.some.inj hb).symm
          refine ⟨(determine_vote blockInfo req).1, ?_, ?_⟩
          · simp only [alLookup_alInsert, if_pos heq]
          · rw [hbi]
            exact ⟨by rfl, by rfl, by rfl, Or.inr (by rfl)⟩
        · refine ⟨bi, ?_, NrEvolves.rfl bi⟩
          simp only [alLookup_alInsert, if_neg heq]
          exact hb

theorem verify_packet_evolves (s : SignerM) (packet : PacketMsgM) (ok : Bool) (h : Bytes)
    (bi : BlockInfo) (hb : alLookup s.blocks h = some bi) :
    ∃ bi2, alLookup (verify_packet s packet ok).1.blocks h = some bi2 ∧
      NrEvolves bi bi2 := by
  unfold verify_packet
  cases ok with
  | false => exact ⟨bi, hb, NrEvolves.rfl bi⟩
  | true =>
    simp only [if_true]
    cases packet with
    | signatureShareRequest request =>
      cases hv : validate_signature_share_request s.blocks request with
      | some r1 =>
        simp only [hv]
        exact ⟨bi, hb, NrEvolves.rfl bi⟩
      | none =>
        simp only [hv]
        exact ⟨bi, hb, NrEvolves.rfl bi⟩
    | nonceRequest request =>
      obtain ⟨bi2, hb2, he2⟩ := validate_nonce_request_evolves s request h bi hb
      cases hv : (validate_nonce_request s request).2 with
      | some r1 =>
        simp only [hv]
        exact ⟨bi2, hb2, he2⟩
      | none =>
        simp only [hv]
        exact ⟨bi2, hb2, he2⟩
    | other => exact ⟨bi, hb, NrEvolves.rfl bi⟩

theorem collect_packets_evolves (msgs : List SignerMessageM) (s : SignerM)
    (current_md : CoordinatorMetadataM) (now : Nat) (h : Bytes) (bi : BlockInfo)
    (hb : alLookup s.blocks h = some bi) :
    ∃ bi2, alLookup (collect_packets s current_md now msgs).1.blocks h = some bi2 ∧
      NrEvolves bi bi2 := by
  induction msgs generalizing s bi with
  | nil => exact ⟨bi, hb, NrEvolves.rfl bi⟩
  | cons msg rest ih =>
    cases msg with
    | blockResponse => exact ih s bi hb
    | transactions => exact ih s bi hb
    | packetMessage packet ok pid smd =>
      have hb1 : alLookup
          (process_signer_consensus_hash_view s current_md smd pid).1.blocks h =
          some bi := by
        rw [pschv_blocks]
        exact hb
      obtain ⟨bi2, hb2, he2⟩ := verify_packet_evolves _ packet ok h bi hb1
      obtain ⟨bi3, hb3, he3⟩ := ih _ bi2 hb2
      exact ⟨bi3, hb3, he2.trans he3⟩
    | nack nmsg =>
      show ∃ bi2, alLookup (match s.stale_node_nack_policy with
        | some policy =>
          collect_packets (process_nack_message s nmsg current_md now policy)
            current_md now rest
        | none => collect_packets s current_md now rest).1.blocks h = some bi2 ∧
        NrEvolves bi bi2
      cases hpol : s.stale_node_nack_policy with
      | some policy =>
        have hb1 : alLookup
            (process_nack_message s nmsg current_md now policy).blocks h = some bi := by
          rw [pnm_blocks]
          exact hb
        exact ih _ bi hb1
      | none => exact ih s bi hb

theorem execute_command_mono (s : SignerM) (oracle : ExecOracle) (cmd : Command)
    (h : Bytes) (bi bi2 : BlockInfo) (hb : alLookup s.blocks h = some bi)
    (ha : alLookup (execute_command s oracle cmd).1.blocks h = some bi2) :
    bi2.block = bi.block ∧ (bi.signed_over = true → bi2.signed_over = true) ∧
    (∀ v, bi.vote = some v → bi2.vote = some v) := by
  have hout : bi2 = bi ∨
      (bi2.block = bi.block ∧ bi2.vote = bi.vote ∧ bi2.signed_over = true) := by
    unfold execute_command at ha
    cases cmd with
    | dkg =>
      cases holr : oracle.last_round with
      | none =>
        simp only [holr] at ha
        rw [hb] at ha
        exact Or.inl (Option.some.inj ha).symm
      | some vote_round =>
        simp only [holr] at ha
        by_cases hdk : oracle.start_dkg_ok = true
        · simp only [hdk, if_true, update_operation] at ha
          rw [hb] at ha
          exact Or.inl (Option.some.inj ha).symm
        · simp only [hdk] at ha
          rw [if_neg (by simp [hdk])] at ha
          rw [hb] at ha
          exact Or.inl (Option.some.inj ha).symm
    | sign block it mr =>
      cases hlk : alLookup s.blocks block.signer_signature_hash with
      | some bi0 =>
        simp only [hlk] at ha
        by_cases hso : bi0.signed_over = true
        · simp only [hso, if_true] at ha
          rw [hb] at ha
          exact Or.inl (Option.some.inj ha).symm
        · rw [if_neg (by simp [hso])] at ha
          by_cases hsk : oracle.start_sign_ok = true
          · simp only [hsk, if_true, update_operation] at ha
            simp only [alLookup_alInsert] at ha
            by_cases heq : h = block.signer_signature_hash
            · rw [if_pos heq] at ha
              have hbi : bi = bi0 := by
                rw [heq, hlk] at hb
                exact (Option.some.inj hb).symm
              refine Or.inr ?_
              rw [← Option.some.inj ha, hbi]
              exact ⟨by rfl, by rfl, by rfl⟩
            · rw [if_neg heq] at ha
              rw [hb] at ha
              exact Or.inl (Option.some.inj ha).symm
          · rw [if_neg (by simp [hsk])] at ha
            rw [hb] at ha
            exact Or.inl (Option.some.inj ha).symm
      | none =>
        simp only [hlk] at ha
        have hne : h ≠ block.signer_signature_hash := by
          intro heq
          rw [heq, hlk] at hb
          cases hb
        have hfresh : (BlockInfo.new block).signed_over = true → False := by
          intro habs
          cases habs
        rw [if_neg (by intro habs; exact hfresh habs)] at ha
        by_cases hsk : oracle.start_sign_ok = true
        · simp only [hsk, if_true, update_operation] at ha
          simp only [alLookup_alInsert, if_neg hne] at ha
          rw [hb] at ha
          exact Or.inl (Option.some.inj ha).symm
        · rw [if_neg (by simp [hsk])] at ha
          simp only [alLookup_alInsert, if_neg hne] at ha
          rw [hb] at ha
          exact Or.inl (Option.some.inj ha).symm
  rcases hout with heq | ⟨hblk, hvote, hso⟩
  · subst heq
    exact ⟨by rfl, fun hx => hx, fun v hv => hv⟩
  · exact ⟨hblk, fun _ => hso, fun v hv => by rw [hvote]; exact hv⟩

/-- C4 counterexample: blockA is tracked with a cached yes vote and
    signed_over true, yet receiving blockA again in a ProposedBlocks event
    replaces the entry with a fresh BlockInfo whose vote is cleared and
    whose signed_over flag is back to false, refuting vote immutability and
    signed_over monotonicity across every engine operation. -/
theorem C4_counterexample :
    (alLookup votedSigner.blocks hashA).map BlockInfo.vote = some (some hashA) ∧
    (alLookup votedSigner.blocks hashA).map BlockInfo.signed_over = some true ∧
    alLookup (engineStep votedSigner (EngineOp.proposedBlocks [blockA])).blocks hashA =
      some (BlockInfo.new blockA) ∧
    (BlockInfo.new blockA).vote = none ∧ (BlockInfo.new blockA).signed_over = false := by
  refine ⟨by decide, by decide, by decide, by rfl, by rfl⟩

/-- C4 amended: across every engine operation other than a ProposedBlocks
    event, a tracked block keeps its block payload, its signed_over flag
    never falls back from true to false, and its vote, once set, is either
    left unchanged or rewritten to the vote derived from the entry's
    current validity flag; a ProposedBlocks event may instead reset the
    entry to a fresh BlockInfo. -/
theorem C4_vote_signed_over_monotone (s : SignerM) (op : EngineOp) (h : Bytes)
    (bi bi2 : BlockInfo)
    (hop : ∀ blocks, op ≠ EngineOp.proposedBlocks blocks)
    (hbefore : alLookup s.blocks h = some bi)
    (hafter : alLookup (engineStep s op).blocks h = some bi2) :
    bi2.block = bi.block ∧
    (bi.signed_over = true → bi2.signed_over = true) ∧
    (∀ v, bi.vote = some v → bi2.vote = some v ∨ bi2.vote = some (deriveVote bi2)) := by
  cases op with
  | proposedBlocks blocks => exact absurd rfl (hop blocks)
  | statusCheck =>
    have heq : bi2 = bi := by
      rw [show engineStep s EngineOp.statusCheck = s from rfl, hbefore] at hafter
      exact (Option.some.inj hafter).symm
    subst heq
    exact ⟨rfl, fun hx => hx, fun v hv => Or.inl hv⟩
  | updateDkg view now =>
    have heq : bi2 = bi := by
      rw [show (engineStep s (EngineOp.updateDkg view now)).blocks =
          (update_dkg s view now).blocks from rfl, update_dkg_blocks, hbefore] at hafter
      exact (Option.some.inj hafter).symm
    subst heq
    exact ⟨rfl, fun hx => hx, fun v hv => Or.inl hv⟩
  | nextCommand coordinator_id oracle =>
    have hafter2 : alLookup (process_next_command s coordinator_id oracle).1.blocks h =
        some bi2 := hafter
    unfold process_next_command at hafter2
    cases hst : s.state with
    | operationInProgress =>
      rw [hst] at hafter2
      simp only [hbefore] at hafter2
      have heq : bi2 = bi := (Option.some.inj hafter2).symm
      subst heq
      exact ⟨rfl, fun hx => hx, fun v hv => Or.inl hv⟩
    | tenureExceeded =>
      rw [hst] at hafter2
      simp only [hbefore] at hafter2
      have heq : bi2 = bi := (Option.some.inj hafter2).symm
      subst heq
      exact ⟨rfl, fun hx => hx, fun v hv => Or.inl hv⟩
    | idle =>
      rw [hst] at hafter2
      simp only at hafter2
      by_cases hcid : coordinator_id ≠ s.signer_id
      · rw [if_pos hcid] at hafter2
        simp only [hbefore] at hafter2
        have heq : bi2 = bi := (Option.some.inj hafter2).symm
        subst heq
        exact ⟨rfl, fun hx => hx, fun v hv => Or.inl hv⟩
      · rw [if_neg hcid] at hafter2
        cases hcmds : s.commands with
        | nil =>
          rw [hcmds] at hafter2
          simp only [hbefore] at hafter2
          have heq : bi2 = bi := (Option.some.inj hafter2).symm
          subst heq
          exact ⟨rfl, fun hx => hx, fun v hv => Or.inl hv⟩
        | cons cmd rest =>
          rw [hcmds] at hafter2
          simp only at hafter2
          have hmono := execute_command_mono
            { s with state := StateM.idle, commands := rest } oracle cmd h bi bi2
            hbefore hafter2
          exact ⟨hmono.1, hmono.2.1, fun v hv => Or.inl (hmono.2.2 v hv)⟩
  | signerMessages current_md messages lib now =>
    have hafter2 : alLookup (handle_packets (collect_packets s current_md now messages).1
        (collect_packets s current_md now messages).2.1 lib).1.blocks h = some bi2 :=
      hafter
    have hc : alLookup (collect_packets s current_md now messages).1.blocks h = some bi2 :=
      handle_packets_blocks_sub _ _ _ _ _ hafter2
    obtain ⟨bi3, hb3, he3⟩ := collect_packets_evolves messages s current_md now h bi hbefore
    have heq : bi2 = bi3 := by
      rw [hb3] at hc
      exact (Option.some.inj hc).symm
    subst heq
    refine ⟨he3.1, ?_, ?_⟩
    · intro hso
      rw [he3.2.2.1, hso]
    · intro v hv
      rcases he3.2.2.2 with hv2 | hv2
      · exact Or.inl (by rw [hv2, hv])
      · refine Or.inr ?_
        rw [hv2, he3.deriveVote_eq]
  | validateResponse response audit coordinator_id lib now =>
    have hafter2 : alLookup
        (handle_block_validate_response s response audit coordinator_id lib now).1.blocks h =
        some bi2 := hafter
    unfold handle_block_validate_response at hafter2
    cases response with
    | ok hash =>
      cases hlk : alLookup s.blocks hash with
      | none =>
        simp only [hlk] at hafter2
        rw [hbefore] at hafter2
        have heq : bi2 = bi := (Option.some.inj hafter2).symm
        subst heq
        exact ⟨rfl, fun hx => hx, fun v hv => Or.inl hv⟩
      | some blockInfo =>
        simp only [hlk] at hafter2
        cases hnr : blockInfo.nonce_request with
        | some nonceRequest =>
          simp only [hnr] at hafter2
          rw [reset_nack_back_off_blocks] at hafter2
          have hc := handle_packets_blocks_sub _ _ _ _ _ hafter2
          simp only [alLookup_alInsert] at hc
          by_cases heq : h = hash
          · rw [if_pos heq] at hc
            have hbi : bi = blockInfo := by
              rw [heq, hlk] at hbefore
              exact (Option.some.inj hbefore).symm
            have hbi2 : bi2 = (determine_vote
                { blockInfo with valid := some audit, nonce_request := none }
                nonceRequest).1 := (Option.some.inj hc).symm
            subst hbi
            subst hbi2
            refine ⟨by rfl, fun hx => hx, fun v _ => Or.inr (by rfl)⟩
          · rw [if_neg heq] at hc
            rw [hbefore] at hc
            have hb2 : bi2 = bi := (Option.some.inj hc).symm
            subst hb2
            exact ⟨rfl, fun hx => hx, fun v hv => Or.inl hv⟩
        | none =>
          simp only [hnr] at hafter2
          split at hafter2 <;>
          · rw [reset_nack_back_off_blocks] at hafter2
            simp only [alLookup_alInsert] at hafter2
            by_cases heq : h = hash
            · rw [if_pos heq] at hafter2
              have hbi : bi = blockInfo := by
                rw [heq, hlk] at hbefore
                exact (Option.some.inj hbefore).symm
              have hbi2 : bi2 =
                  { blockInfo with valid := some audit, nonce_request := none } :=
                (Option.some.inj hafter2).symm
              subst hbi
              subst hbi2
              exact ⟨by rfl, fun hx => hx, fun v hv => Or.inl hv⟩
            · rw [if_neg heq] at hafter2
              rw [hbefore] at hafter2
              have hb2 : bi2 = bi := (Option.some.inj hafter2).symm
              subst hb2
              exact ⟨rfl, fun hx => hx, fun v hv => Or.inl hv⟩
    | reject hash =>
      cases hlk : alLookup s.blocks hash with
      | none =>
        simp only [hlk] at hafter2
        rw [hbefore] at hafter2
        have heq : bi2 = bi := (Option.some.inj hafter2).symm
        subst heq
        exact ⟨rfl, fun hx => hx, fun v hv => Or.inl hv⟩
      | some blockInfo =>
        simp only [hlk] at hafter2
        cases hnr : blockInfo.nonce_request with
        | some nonceRequest =>
          simp only [hnr] at hafter2
          rw [reset_nack_back_off_blocks] at hafter2
          have hc := handle_packets_blocks_sub _ _ _ _ _ hafter2
          simp only [alLookup_alInsert] at hc
          by_cases heq : h = hash
          · rw [if_pos heq] at hc
            have hbi : bi = blockInfo := by
              rw [heq, hlk] at hbefore
              exact (Option.some.inj hbefore).symm
            have hbi2 : bi2 = (determine_vote
                { blockInfo with valid := some false, nonce_request := none }
                nonceRequest).1 := (Option.some.inj hc).symm
            subst hbi
            subst hbi2
            refine ⟨by rfl, fun hx => hx, fun v _ => Or.inr (by rfl)⟩
          · rw [if_neg heq] at hc
            rw [hbefore] at hc
            have hb2 : bi2 = bi := (Option.some.inj hc).symm
            subst hb2
            exact ⟨rfl, fun hx => hx, fun v hv => Or.inl hv⟩
        | none =>
          simp only [hnr] at hafter2
          split at hafter2 <;>
          · rw [reset_nack_back_off_blocks] at hafter2
            simp only [alLookup_alInsert] at hafter2
            by_cases heq : h = hash
            · rw [if_pos heq] at hafter2
              have hbi : bi = blockInfo := by
                rw [heq, hlk] at hbefore
                exact (Option.some.inj hbefore).symm
              have hbi2 : bi2 =
                  { blockInfo with valid := some false, nonce_request := none } :=
                (Option.some.inj hafter2).symm
              subst hbi
              subst hbi2
              exact ⟨by rfl, fun hx => hx, fun v hv => Or.inl hv⟩
            · rw [if_neg heq] at hafter2
              rw [hbefore] at hafter2
              have hb2 : bi2 = bi := (Option.some.inj hafter2).symm
              subst hb2
              exact ⟨rfl, fun hx => hx, fun v hv => Or.inl hv⟩

/-- C4 amended witness: the amended statement at a block validation
    response for the tracked blockA. -/
theorem C4_vote_signed_over_monotone_witness :
    votedBlockInfo.block = votedBlockInfo.block ∧
    (votedBlockInfo.signed_over = true → votedBlockInfo.signed_over = true) ∧
    (∀ v, votedBlockInfo.vote = some v →
      votedBlockInfo.vote = some v ∨ votedBlockInfo.vote = some (deriveVote votedBlockInfo)) :=
  C4_vote_signed_over_monotone votedSigner
    (EngineOp.validateResponse (BlockValidateResponseM.ok hashA) true 0 libQuiet 0) hashA
    votedBlockInfo votedBlockInfo (by intro b hb; cases hb) (by decide) (by decide)

theorem contig_tail {α : Type} [DecidableEq α] (x : α) (l : List α)
    (h : contig (x :: l) = true) : contig l = true := by
  unfold contig at h
  simp only [Bool.and_eq_true] at h
  exact h.2

theorem contig_head_clause {α : Type} [DecidableEq α] (x : α) (l : List α)
    (h : contig (x :: l) = true) (hx : x ∈ l) : l.head? = some x := by
  unfold contig at h
  simp only [Bool.and_eq_true, Bool.or_eq_true, Bool.not_eq_true',
    decide_eq_false_iff_not, decide_eq_true_eq] at h
  rcases h.1 with hnot | hhead
  · exact absurd hx hnot
  · exact hhead

theorem contig_del_second {α : Type} [DecidableEq α] (y x : α) (l : List α)
    (h : contig (y :: x :: l) = true) : contig (y :: l) = true := by
  have h1 : contig (x :: l) = true := contig_tail _ _ h
  have h2 : contig l = true := contig_tail _ _ h1
  unfold contig
  simp only [Bool.and_eq_true, Bool.or_eq_true, Bool.not_eq_true',
    decide_eq_false_iff_not, decide_eq_true_eq]
  refine ⟨?_, h2⟩
  by_cases hy : y ∈ l
  · right
    have hyxl : y ∈ x :: l := List.mem_cons_of_mem _ hy
    have hhead := contig_head_clause y (x :: l) h hyxl
    have hxy : x = y := by
      simpa using hhead
    have hxl : x ∈ l := by
      rw [hxy]
      exact hy
    have hres := contig_head_clause x l h1 hxl
    rw [hxy] at hres
    exact hres
  · left
    exact hy

theorem contig_head_not_mem {α : Type} [DecidableEq α] (y x : α) (l : List α)
    (h : contig (y :: x :: l) = true) (hne : y ≠ x) : y ∉ x :: l := by
  intro hmem
  have hhead := contig_head_clause y (x :: l) h hmem
  simp only [List.head?_cons, Option.some.injEq] at hhead
  exact hne hhead.symm

theorem contig_delete_mid {α : Type} [DecidableEq α] (k : List α) (x : α) (l : List α)
    (hk : k.length ≤ 1) (h : contig (k ++ x :: l) = true) : contig (k ++ l) = true := by
  cases k with
  | nil => exact contig_tail x l h
  | cons y k2 =>
    cases k2 with
    | nil => exact contig_del_second y x l h
    | cons z k3 => simp at hk

theorem pschv_eq_noop_hash (s : SignerM) (a b : CoordinatorMetadataM) (i : Nat)
    (h1 : ¬a.pox_consensus_hash ≠ b.pox_consensus_hash) :
    process_signer_consensus_hash_view s a b i = (s, []) := by
  unfold process_signer_consensus_hash_view
  rw [if_neg h1]

theorem pschv_eq_noop_stale (s : SignerM) (a b : CoordinatorMetadataM) (i : Nat)
    (h1 : a.pox_consensus_hash ≠ b.pox_consensus_hash)
    (h2 : a.burn_block_height < b.burn_block_height) :
    process_signer_consensus_hash_view s a b i = (s, []) := by
  unfold process_signer_consensus_hash_view
  rw [if_pos h1, if_pos h2]

theorem pschv_eq_dup (s : SignerM) (a b : CoordinatorMetadataM) (i : Nat)
    (targets : List Nat) (h1 : a.pox_consensus_hash ≠ b.pox_consensus_hash)
    (h2 : ¬a.burn_block_height < b.burn_block_height)
    (hcont : alLookup s.nack_messages_sent a = some targets) (hmem : i ∈ targets) :
    process_signer_consensus_hash_view s a b i = (s, []) := by
  unfold process_signer_consensus_hash_view
  rw [if_pos h1, if_neg h2]
  have hins : setInsert targets i = (targets, false) := by
    simp [setInsert, hmem]
  simp only [hcont, Option.isSome_some, if_true, Option.getD_some, hins]
  simp [alInsert_eq_self _ _ _ hcont]

theorem pschv_eq_insert (s : SignerM) (a b : CoordinatorMetadataM) (i : Nat)
    (targets : List Nat) (h1 : a.pox_consensus_hash ≠ b.pox_consensus_hash)
    (h2 : ¬a.burn_block_height < b.burn_block_height)
    (hcont : alLookup s.nack_messages_sent a = some targets) (hmem : i ∉ targets) :
    process_signer_consensus_hash_view s a b i =
      ({ s with nack_messages_sent := alInsert s.nack_messages_sent a (targets ++ [i]) },
       [(a, i)]) := by
  unfold process_signer_consensus_hash_view
  rw [if_pos h1, if_neg h2]
  simp only [hcont, Option.isSome_some, if_true, Option.getD_some, setInsert, hmem,
    if_neg]
  simp [hmem]

theorem pschv_eq_fresh (s : SignerM) (a b : CoordinatorMetadataM) (i : Nat)
    (h1 : a.pox_consensus_hash ≠ b.pox_consensus_hash)
    (h2 : ¬a.burn_block_height < b.burn_block_height)
    (hcont : alLookup s.nack_messages_sent a = none) :
    process_signer_consensus_hash_view s a b i =
      ({ s with nack_messages_sent := [(a, [i])] }, [(a, i)]) := by
  unfold process_signer_consensus_hash_view
  rw [if_pos h1, if_neg h2]
  simp [hcont, setInsert, alInsert, alLookup]

theorem pschv_emits (s : SignerM) (a b : CoordinatorMetadataM) (i : Nat) :
    (process_signer_consensus_hash_view s a b i).2 = [] ∨
    (process_signer_consensus_hash_view s a b i).2 = [(a, i)] := by
  unfold process_signer_consensus_hash_view
  dsimp only
  split_ifs <;> simp

theorem pschv_sent_len (s : SignerM) (a b : CoordinatorMetadataM) (i : Nat)
    (hlen : s.nack_messages_sent.length ≤ 1) :
    (process_signer_consensus_hash_view s a b i).1.nack_messages_sent.length ≤ 1 := by
  by_cases h1 : a.pox_consensus_hash ≠ b.pox_consensus_hash
  · by_cases h2 : a.burn_block_height < b.burn_block_height
    · rw [pschv_eq_noop_stale s a b i h1 h2]
      exact hlen
    · cases hcont : alLookup s.nack_messages_sent a with
      | some targets =>
        by_cases hmem : i ∈ targets
        · rw [pschv_eq_dup s a b i targets h1 h2 hcont hmem]
          exact hlen
        · rw [pschv_eq_insert s a b i targets h1 h2 hcont hmem]
          show (alInsert s.nack_messages_sent a (targets ++ [i])).length ≤ 1
          rw [alInsert_length]
          simp only [hcont, Option.isSome_some, if_true]
          exact hlen
      | none =>
        rw [pschv_eq_fresh s a b i h1 h2 hcont]
        simp
  · rw [pschv_eq_noop_hash s a b i h1]
    exact hlen

theorem pschv_sent_keys (s : SignerM) (a b : CoordinatorMetadataM) (i : Nat) :
    ((process_signer_consensus_hash_view s a b i).1.nack_messages_sent.map Prod.fst =
      s.nack_messages_sent.map Prod.fst) ∨
    ((process_signer_consensus_hash_view s a b i).1.nack_messages_sent.map Prod.fst =
      [a]) := by
  by_cases h1 : a.pox_consensus_hash ≠ b.pox_consensus_hash
  · by_cases h2 : a.burn_block_height < b.burn_block_height
    · rw [pschv_eq_noop_stale s a b i h1 h2]
      exact Or.inl rfl
    · cases hcont : alLookup s.nack_messages_sent a with
      | some targets =>
        by_cases hmem : i ∈ targets
        · rw [pschv_eq_dup s a b i targets h1 h2 hcont hmem]
          exact Or.inl rfl
        · rw [pschv_eq_insert s a b i targets h1 h2 hcont hmem]
          refine Or.inl ?_
          show (alInsert s.nack_messages_sent a (targets ++ [i])).map Prod.fst =
            s.nack_messages_sent.map Prod.fst
          rw [alInsert_keys]
          simp only [hcont, Option.isSome_some, if_true]
      | none =>
        rw [pschv_eq_fresh s a b i h1 h2 hcont]
        exact Or.inr rfl
  · rw [pschv_eq_noop_hash s a b i h1]
    exact Or.inl rfl

theorem runTrace_sent_len (calls : List (CoordinatorMetadataM × CoordinatorMetadataM × Nat))
    (s : SignerM) (hlen : s.nack_messages_sent.length ≤ 1) :
    (runConsensusViewTrace s calls).1.nack_messages_sent.length ≤ 1 := by
  induction calls generalizing s with
  | nil => exact hlen
  | cons c rest ih => exact ih _ (pschv_sent_len s c.1 c.2.1 c.2.2 hlen)

theorem consensus_count_notin
    (calls : List (CoordinatorMetadataM × CoordinatorMetadataM × Nat)) (s : SignerM)
    (md : CoordinatorMetadataM) (t : Nat) (hnot : md ∉ calls.map (fun c => c.1)) :
    (runConsensusViewTrace s calls).2.count (md, t) = 0 := by
  induction calls generalizing s with
  | nil => rfl
  | cons c rest ih =>
    have hmd : md ≠ c.1 ∧ md ∉ rest.map (fun c => c.1) := by
      simp only [List.map_cons, List.mem_cons] at hnot
      exact ⟨fun h => hnot (Or.inl h), fun h => hnot (Or.inr h)⟩
    show ((process_signer_consensus_hash_view s c.1 c.2.1 c.2.2).2 ++
      (runConsensusViewTrace (process_signer_consensus_hash_view s c.1 c.2.1 c.2.2).1
        rest).2).count (md, t) = 0
    rw [List.count_append]
    rcases pschv_emits s c.1 c.2.1 c.2.2 with he | he
    · rw [he, ih _ hmd.2]
      simp
    · rw [he, ih _ hmd.2]
      have hne : ((c.1, c.2.2) : CoordinatorMetadataM × Nat) ≠ (md, t) := by
        intro habs
        exact hmd.1 (congrArg Prod.fst habs).symm
      simp [List.count_cons, hne]

theorem consensus_count_bound
    (calls : List (CoordinatorMetadataM × CoordinatorMetadataM × Nat)) (s : SignerM)
    (md : CoordinatorMetadataM) (t : Nat)
    (hlen : s.nack_messages_sent.length ≤ 1)
    (hcontig : contig ((s.nack_messages_sent.map Prod.fst) ++
      calls.map (fun c => c.1)) = true) :
    (runConsensusViewTrace s calls).2.count (md, t) ≤
      (if t ∈ (alLookup s.nack_messages_sent md).getD [] then 0 else 1) := by
  induction calls generalizing s with
  | nil =>
    show (([] : List (CoordinatorMetadataM × Nat)).count (md, t)) ≤ _
    rw [List.count_nil]
    exact Nat.zero_le _
  | cons c rest ih =>
    have hklen : (s.nack_messages_sent.map Prod.fst).length ≤ 1 := by
      simpa using hlen
    have hlocals : contig ((s.nack_messages_sent.map Prod.fst) ++
        (c.1 :: rest.map (fun x => x.1))) = true := by
      simpa using hcontig
    have hdel := contig_delete_mid _ c.1 _ hklen hlocals
    show ((process_signer_consensus_hash_view s c.1 c.2.1 c.2.2).2 ++
      (runConsensusViewTrace (process_signer_consensus_hash_view s c.1 c.2.1 c.2.2).1
        rest).2).count (md, t) ≤ _
    rw [List.count_append]
    by_cases h1 : c.1.pox_consensus_hash ≠ c.2.1.pox_consensus_hash
    case neg =>
      rw [pschv_eq_noop_hash s c.1 c.2.1 c.2.2 h1]
      simpa using ih s hlen hdel
    case pos =>
    by_cases h2 : c.1.burn_block_height < c.2.1.burn_block_height
    case pos =>
      rw [pschv_eq_noop_stale s c.1 c.2.1 c.2.2 h1 h2]
      simpa using ih s hlen hdel
    case neg =>
    cases hcont : alLookup s.nack_messages_sent c.1 with
    | some targets =>
      by_cases hmem : c.2.2 ∈ targets
      · rw [pschv_eq_dup s c.1 c.2.1 c.2.2 targets h1 h2 hcont hmem]
        simpa using ih s hlen hdel
      · rw [pschv_eq_insert s c.1 c.2.1 c.2.2 targets h1 h2 hcont hmem]
        dsimp only
        have hlen1 : (alInsert s.nack_messages_sent c.1 (targets ++ [c.2.2])).length ≤ 1 := by
          rw [alInsert_length]
          simp only [hcont, Option.isSome_some, if_true]
          exact hlen
        have hkeys1 : (alInsert s.nack_messages_sent c.1
            (targets ++ [c.2.2])).map Prod.fst = s.nack_messages_sent.map Prod.fst := by
          rw [alInsert_keys]
          simp only [hcont, Option.isSome_some, if_true]
        have hih := ih
          { s with nack_messages_sent := alInsert s.nack_messages_sent c.1 (targets ++ [c.2.2]) }
          hlen1
          (by
            show contig ((alInsert s.nack_messages_sent c.1
              (targets ++ [c.2.2])).map Prod.fst ++ rest.map (fun x => x.1)) = true
            rw [hkeys1]
            exact hdel)
        by_cases hpair : md = c.1 ∧ t = c.2.2
        · obtain ⟨hmd, ht⟩ := hpair
          subst hmd
          subst ht
          have hcnt1 : (([(c.1, c.2.2)] : List (CoordinatorMetadataM × Nat)).count
              (c.1, c.2.2)) = 1 := by
            simp
          have htarget : (if c.2.2 ∈ (alLookup s.nack_messages_sent c.1).getD []
              then 0 else 1) = 1 := by
            rw [hcont]
            simp [hmem]
          rw [hcnt1, htarget]
          have hl : (alLookup (alInsert s.nack_messages_sent c.1 (targets ++ [c.2.2]))
              c.1).getD [] = targets ++ [c.2.2] := by
            rw [alLookup_alInsert]
            simp
          simp only [hl] at hih
          have hmemt : c.2.2 ∈ targets ++ [c.2.2] := by simp
          simp only [hmemt, if_true] at hih
          omega
        · have hcnt0 : (([(c.1, c.2.2)] : List (CoordinatorMetadataM × Nat)).count
              (md, t)) = 0 := by
            rw [List.count_eq_zero]
            intro habs
            simp only [List.mem_singleton] at habs
            exact hpair ⟨(congrArg Prod.fst habs), (congrArg Prod.snd habs)⟩
          rw [hcnt0, Nat.zero_add]
          by_cases hmd : md = c.1
          · subst hmd
            have ht : t ≠ c.2.2 := fun hteq => hpair ⟨rfl, hteq⟩
            have hl : (alLookup (alInsert s.nack_messages_sent c.1
                (targets ++ [c.2.2])) c.1).getD [] = targets ++ [c.2.2] := by
              rw [alLookup_alInsert]
              simp
            simp only [hl] at hih
            have hmemiff : (t ∈ targets ++ [c.2.2]) ↔ (t ∈ targets) := by
              simp [ht]
            rw [hcont]
            simp only [Option.getD_some]
            rcases Decidable.em (t ∈ targets) with htm | htm
            · rw [if_pos (hmemiff.mpr htm)] at hih
              rw [if_pos htm]
              exact hih
            · rw [if_neg (fun hx => htm (hmemiff.mp hx))] at hih
              rw [if_neg htm]
              exact hih
          · have hl : (alLookup (alInsert s.nack_messages_sent c.1
                (targets ++ [c.2.2])) md).getD [] =
                (alLookup s.nack_messages_sent md).getD [] := by
              rw [alLookup_alInsert, if_neg hmd]
            simp only [hl] at hih
            exact hih
    | none =>
      rw [pschv_eq_fresh s c.1 c.2.1 c.2.2 h1 h2 hcont]
      dsimp only
      have hcontig1 : contig (([(c.1, [c.2.2])] :
          List (CoordinatorMetadataM × List Nat)).map Prod.fst ++
          rest.map (fun x => x.1)) = true := by
        show contig (c.1 :: rest.map (fun x => x.1)) = true
        cases hsent : s.nack_messages_sent with
        | nil =>
          rw [hsent] at hlocals
          simpa using hlocals
        | cons p tail =>
          cases tail with
          | nil =>
            rw [hsent] at hlocals
            exact contig_tail _ _ (by simpa using hlocals)
          | cons q tail2 =>
            rw [hsent] at hlen
            simp at hlen
      have hih := ih { s with nack_messages_sent := [(c.1, [c.2.2])] } (by simp)
        hcontig1
      by_cases hpair : md = c.1 ∧ t = c.2.2
      · obtain ⟨hmd, ht⟩ := hpair
        subst hmd
        subst ht
        have hcnt1 : (([(c.1, c.2.2)] : List (CoordinatorMetadataM × Nat)).count
            (c.1, c.2.2)) = 1 := by
          simp
        have htarget : (if c.2.2 ∈ (alLookup s.nack_messages_sent c.1).getD []
            then 0 else 1) = 1 := by
          rw [hcont]
          simp
        rw [hcnt1, htarget]
        have hl : (alLookup ([(c.1, [c.2.2])] :
            List (CoordinatorMetadataM × List Nat)) c.1).getD [] = [c.2.2] := by
          simp [alLookup]
        simp only [hl] at hih
        rw [if_pos (by simp : c.2.2 ∈ [c.2.2])] at hih
        omega
      · have hcnt0 : (([(c.1, c.2.2)] : List (CoordinatorMetadataM × Nat)).count
            (md, t)) = 0 := by
          rw [List.count_eq_zero]
          intro habs
          simp only [List.mem_singleton] at habs
          exact hpair ⟨(congrArg Prod.fst habs), (congrArg Prod.snd habs)⟩
        rw [hcnt0, Nat.zero_add]
        by_cases hmd : md = c.1
        · subst hmd
          have ht : t ≠ c.2.2 := fun hteq => hpair ⟨rfl, hteq⟩
          have hl : (alLookup ([(c.1, [c.2.2])] :
              List (CoordinatorMetadataM × List Nat)) c.1).getD [] = [c.2.2] := by
            simp [alLookup]
          simp only [hl] at hih
          rw [if_neg (by simp [ht] : ¬(t ∈ [c.2.2]))] at hih
          have htarget : (if t ∈ (alLookup s.nack_messages_sent c.1).getD []
              then 0 else 1) = 1 := by
            rw [hcont]
            simp
          rw [htarget]
          exact hih
        · have hl : (alLookup ([(c.1, [c.2.2])] :
              List (CoordinatorMetadataM × List Nat)) md).getD [] = [] := by
            simp [alLookup, hmd]
          simp only [hl] at hih
          rw [if_neg (by simp : ¬(t ∈ ([] : List Nat)))] at hih
          rcases Decidable.em (t ∈ (alLookup s.nack_messages_sent md).getD []) with htm | htm
          · have hsome : ∃ vs, alLookup s.nack_messages_sent md = some vs ∧ t ∈ vs := by
              cases hx : alLookup s.nack_messages_sent md with
              | none =>
                rw [hx] at htm
                simp at htm
              | some vs =>
                rw [hx] at htm
                exact ⟨vs, rfl, by simpa using htm⟩
            obtain ⟨vs, hvs, _⟩ := hsome
            have hkey : s.nack_messages_sent.map Prod.fst = [md] := by
              cases hsent : s.nack_messages_sent with
              | nil =>
                rw [hsent] at hvs
                simp [alLookup] at hvs
              | cons p tail =>
                cases tail with
                | nil =>
                  rw [hsent] at hvs
                  simp only [alLookup] at hvs
                  by_cases hpm : md = p.1
                  · simp [hpm]
                  · rw [if_neg hpm] at hvs
                    simp [alLookup] at hvs
                | cons q tail2 =>
                  rw [hsent] at hlen
                  simp at hlen
            have hnotin : md ∉ rest.map (fun x => x.1) := by
              rw [hkey] at hlocals
              have hninc : md ∉ c.1 :: rest.map (fun x => x.1) :=
                contig_head_not_mem md c.1 _ (by simpa using hlocals) hmd
              intro habs
              exact hninc (List.mem_cons_of_mem _ habs)
            have hzero := consensus_count_notin rest
              { s with nack_messages_sent := [(c.1, [c.2.2])] } md t hnotin
            rw [if_pos htm]
            omega
          · rw [if_neg htm]
            exact hih

/-- C6 counterexample: when the local metadata reverts to a previously
    abandoned view (mdA, then mdB, then mdA again), a NACK to the same
    target signer 1 under the same local metadata mdA is emitted twice,
    refuting the at-most-once property as stated. -/
theorem C6_counterexample :
    (runConsensusViewTrace baseSigner traceRevert).2.count (mdA, 1) = 2 := by decide

/-- C6 amended: starting from an empty registry, the nack_messages_sent
    registry always holds at most one CoordinatorMetadata key; a call
    either leaves the registry key set unchanged or replaces it with
    exactly the current local metadata (clearing all prior entries first);
    and, provided the local metadata never returns to a previously
    abandoned value (its occurrences in the call sequence are contiguous),
    a NACK to a given target under a given local metadata is emitted at
    most once. -/
theorem C6_nack_sent_registry
    (calls : List (CoordinatorMetadataM × CoordinatorMetadataM × Nat))
    (md : CoordinatorMetadataM) (t : Nat) (s : SignerM)
    (hinit : s.nack_messages_sent = [])
    (hcontig : contig (calls.map (fun c => c.1)) = true) :
    (runConsensusViewTrace s calls).1.nack_messages_sent.length ≤ 1 ∧
    (runConsensusViewTrace s calls).2.count (md, t) ≤ 1 ∧
    (∀ (s1 : SignerM) (a b : CoordinatorMetadataM) (i : Nat),
      ((process_signer_consensus_hash_view s1 a b i).1.nack_messages_sent.map Prod.fst =
        s1.nack_messages_sent.map Prod.fst) ∨
      ((process_signer_consensus_hash_view s1 a b i).1.nack_messages_sent.map Prod.fst =
        [a])) := by
  refine ⟨?_, ?_, fun s1 a b i => pschv_sent_keys s1 a b i⟩
  · exact runTrace_sent_len calls s (by rw [hinit]; simp)
  · have hb := consensus_count_bound calls s md t (by rw [hinit]; simp)
      (by rw [hinit]; simpa using hcontig)
    refine le_trans hb ?_
    split
    · omega
    · omega

/-- C6 amended witness: the amended statement on a two-call trace whose
    local metadata advances from mdA to mdB. -/
theorem C6_nack_sent_registry_witness :
    (runConsensusViewTrace baseSigner traceContig).1.nack_messages_sent.length ≤ 1 ∧
    (runConsensusViewTrace baseSigner traceContig).2.count (mdA, 1) ≤ 1 ∧
    (∀ (s1 : SignerM) (a b : CoordinatorMetadataM) (i : Nat),
      ((process_signer_consensus_hash_view s1 a b i).1.nack_messages_sent.map Prod.fst =
        s1.nack_messages_sent.map Prod.fst) ∨
      ((process_signer_consensus_hash_view s1 a b i).1.nack_messages_sent.map Prod.fst =
        [a])) :=
  C6_nack_sent_registry traceContig mdA 1 baseSigner rfl (by decide)

end StacksSigner
